import Mathlib

/-
Verification development for the matcha.js presentation engine.

This file shallowly embeds the text-processing and state-machine core of the
repository in Lean 4 and proves properties of the embedding:

  * the progressive-disclosure state machine of src/models/fragment.js
    (resetSlide / showAllSteps / nextStep / prevStep, lines 320-476);
  * the step-marker and highlight scanners of Fragment.parseAndRender and
    Fragment._parseHighlights (fragment.js lines 135-283);
  * the component module of src/models/component.js: _parseParams,
    extractDefinitions, the template interpreter _renderTemplate with its six
    construct passes, and the variable merge of renderComponents;
  * the image module's _parseParams (identical scanner);
  * the document-level splitting of Matcha.parseAndBuild (matcha.js lines
    106-141): the ---global split, definition extraction, global-style
    removal and the slide separator split.

Modelling conventions.  JavaScript strings are modelled as `List Char`
(`String` at the outer API).  Regular-expression scanning is modelled by
explicit left-to-right scanners that reproduce the backtracking behaviour of
the concrete patterns used in the source (the only places where backtracking
matters are noted at each scanner).  JS `\s` is modelled by its ASCII subset
(inputs of interest are ASCII; the non-ASCII space characters of the JS
class behave identically with respect to every property proved here).
JS numbers appearing in the state machine are integers in all reachable
states; `currentMicroStep` is embedded as `Int` because the source applies
unguarded `--` to it.  `parseInt`/`Number` are modelled on decimal integer
forms (the forms the scanners can produce); hexadecimal and fractional
forms are not exercised by anything in this development.  Recursion that
the source performs by mutable regex loops or by recursive calls on strict
substrings is embedded with an explicit fuel argument; every theorem either
fixes a concrete sufficient fuel or quantifies over it.
-/

namespace MatchaJs

/-- ASCII subset of the JS `\s` character class (space, tab, newline,
carriage return, vertical tab, form feed). -/
def isSpaceChar (c : Char) : Bool :=
  c = ' ' || c = '\t' || c = '\n' || c = '\r' || c = Char.ofNat 11 || c = Char.ofNat 12

/-- JS `\w`: ASCII letters, digits and underscore. -/
def isWordChar (c : Char) : Bool :=
  c.isAlpha || c.isDigit || c = '_'

/-- The character class `[\w-]` used for keys, names and effect tokens. -/
def isKeyChar (c : Char) : Bool :=
  isWordChar c || c = '-'

/-- The character class `[\w$]` used for template variable names. -/
def isVarChar (c : Char) : Bool :=
  isWordChar c || c = '$'

/-- Drop a literal prefix, returning the remainder when the input starts
with the literal. -/
def litAt : List Char → List Char → Option (List Char)
  | [], cs => some cs
  | _ :: _, [] => none
  | l :: ls, c :: cs => if c = l then litAt ls cs else none

/-- Left-to-right regex scanning: find the first position where the match
attempt `m` succeeds; return the text before the match and `m`'s result. -/
def scanFirst (m : List Char → Option α) : List Char → Option (List Char × α)
  | [] => (m []).map (fun a => ([], a))
  | c :: cs =>
    match m (c :: cs) with
    | some a => some ([], a)
    | none => (scanFirst m cs).map (fun pa => (c :: pa.1, pa.2))

/-- Lazy group `([\s\S]*?)` followed by a stop pattern: split at the first
position (zero-length allowed) where `stop` succeeds. -/
def splitFirstP (stop : List Char → Option (List Char)) : List Char → Option (List Char × List Char)
  | [] => (stop []).map (fun r => ([], r))
  | c :: cs =>
    match stop (c :: cs) with
    | some r => some ([], r)
    | none => (splitFirstP stop cs).map (fun pr => (c :: pr.1, pr.2))

/-- Lazy one-or-more group (`(.+?)` or `([\s\S]+?)`) followed by a stop
pattern: the group takes at least one character, then stops at the first
position where `stop` succeeds. -/
def lazyScanP (stop : List Char → Option (List Char)) : List Char → Option (List Char × List Char)
  | [] => none
  | c :: cs =>
    match stop cs with
    | some r => some ([c], r)
    | none => (lazyScanP stop cs).map (fun pr => (c :: pr.1, pr.2))

/-- Greedy run with backtracking: the run characters are `revRun.reverse`
(tried longest first); characters given back are prepended to the rest and
the continuation `cont` is retried, exactly as the regex engine backtracks
out of a greedy class.  The run must keep at least one character. -/
def descSplitRev (cont : List Char → Option α) : List Char → List Char → Option (List Char × α)
  | [], _ => none
  | c :: revRun, rest =>
    match cont rest with
    | some a => some ((c :: revRun).reverse, a)
    | none => descSplitRev cont revRun (c :: rest)

/-- Variant of `descSplitRev` for `\s*`-style groups that may keep zero
characters. -/
def descSplitRev0 (cont : List Char → Option α) : List Char → List Char → Option (List Char × α)
  | [], rest => (cont rest).map (fun a => ([], a))
  | c :: revRun, rest =>
    match cont rest with
    | some a => some ((c :: revRun).reverse, a)
    | none => descSplitRev0 cont revRun (c :: rest)

/-- Numeric value of a digit run. -/
def natOfDigits (ds : List Char) : Nat :=
  ds.foldl (fun a c => a * 10 + (c.toNat - ('0').toNat)) 0

/-- JS `String.prototype.trim` (ASCII whitespace model). -/
def jsTrim (cs : List Char) : List Char :=
  ((cs.dropWhile isSpaceChar).reverse.dropWhile isSpaceChar).reverse

/-- JS string truthiness after `.trim()`: the text has a non-space
character. -/
def trimTruthy (cs : List Char) : Bool :=
  cs.any (fun c => !isSpaceChar c)

/-- JS `parseInt` on the token shapes producible by the scanners of this
module: leading whitespace, optional sign, then a leading decimal digit
run; `none` models `NaN`. -/
def jsParseInt (s : List Char) : Option Int :=
  let cs := s.dropWhile isSpaceChar
  match cs with
  | '-' :: r =>
    let ds := r.takeWhile Char.isDigit
    if ds.isEmpty then none else some (-(natOfDigits ds : Int))
  | '+' :: r =>
    let ds := r.takeWhile Char.isDigit
    if ds.isEmpty then none else some (natOfDigits ds : Int)
  | r =>
    let ds := r.takeWhile Char.isDigit
    if ds.isEmpty then none else some (natOfDigits ds : Int)

/-- JS `Number` coercion on the string shapes relevant here: the whole
trimmed string must be an optionally signed decimal digit run; the empty
string is 0; anything else models `NaN` as `none`. -/
def jsNumber (s : List Char) : Option Int :=
  let cs := jsTrim s
  match cs with
  | [] => some 0
  | '-' :: r => if r ≠ [] && r.all Char.isDigit then some (-(natOfDigits r : Int)) else none
  | '+' :: r => if r ≠ [] && r.all Char.isDigit then some (natOfDigits r : Int) else none
  | r => if r.all Char.isDigit then some (natOfDigits r : Int) else none

/-- JS `x || d` for an optional string: `undefined` and `""` fall back to
the default. -/
def jsOrStr (o : Option String) (d : String) : String :=
  match o with
  | none => d
  | some s => if s = "" then d else s

/-- JS `x || d` for an optional number: `undefined` and `0` fall back to
the default. -/
def jsOrNat (o : Option Nat) (d : Nat) : Nat :=
  match o with
  | none => d
  | some n => if n = 0 then d else n

end MatchaJs

namespace Fragment

open MatchaJs

/-- Per-slide progressive-disclosure state, as created by
`Fragment.parseAndRender` (fragment.js lines 257-264).  `blocks` is the DOM
array whose length `initSlide` copies into `totalSteps`, so the element
existence checks of the source are modelled through `totalSteps`. -/
structure SlideState where
  currentStep : Nat
  currentHighlight : Nat
  totalSteps : Nat
  highlightsPerStep : List Nat
  totalMicroSteps : Nat
  currentMicroStep : Int
deriving DecidableEq, Repr

/-- `state.highlightsPerStep[state.currentStep - 1] || 0`. -/
def hlAt (s : SlideState) : Nat :=
  s.highlightsPerStep.getD (s.currentStep - 1) 0

/-- `Fragment.hasNextStep` (fragment.js lines 540-554). -/
def hasNextStep (s : SlideState) : Bool :=
  if s.currentHighlight < hlAt s then true
  else decide (s.currentStep < s.totalSteps)

/-- `Fragment.hasPrevStep` (fragment.js lines 556-567). -/
def hasPrevStep (s : SlideState) : Bool :=
  if 0 < s.currentHighlight then true
  else decide (1 < s.currentStep)

/-- `Fragment.resetSlide` (fragment.js lines 320-341); DOM class churn
elided. -/
def resetSlide (s : SlideState) : SlideState :=
  { s with currentStep := 1, currentHighlight := 0, currentMicroStep := 1 }

/-- `Fragment.showAllSteps` (fragment.js lines 343-358). -/
def showAllSteps (s : SlideState) : SlideState :=
  { s with
    currentStep := s.totalSteps
    currentHighlight := 0
    currentMicroStep := (s.totalMicroSteps : Int) }

/-- `Fragment.nextStep` (fragment.js lines 363-418): state transition and
returned boolean.  Case 1 reveals the next highlight and returns `true`;
otherwise, at the last step the call is a no-op returning `false`; otherwise
the next block (`blocks[currentStep]`, which exists because
`currentStep < totalSteps = blocks.length`) is revealed and the return value
is `hasNextStep` of the mutated state. -/
def nextStep (s : SlideState) : SlideState × Bool :=
  if s.currentHighlight < hlAt s then
    ({ s with
        currentHighlight := s.currentHighlight + 1
        currentMicroStep := s.currentMicroStep + 1 }, true)
  else if s.totalSteps ≤ s.currentStep then
    (s, false)
  else
    let s' :=
      if s.currentStep < s.totalSteps then
        { s with
            currentStep := s.currentStep + 1
            currentHighlight := 0
            currentMicroStep := s.currentMicroStep + 1 }
      else s
    (s', hasNextStep s')

/-- `Fragment.prevStep` (fragment.js lines 423-476).  Case 1 retreats one
highlight and returns `true`; at the first step with no active highlight the
call is a no-op returning `false`; otherwise, when
`blocks[currentStep - 1]` exists (`currentStep - 1 < totalSteps`), the
current block is hidden, the step counter moves back and, when the previous
step has highlights, the highlight cursor is set to its highlight count; the
return value is `hasPrevStep` of the resulting state. -/
def prevStep (s : SlideState) : SlideState × Bool :=
  if 0 < s.currentHighlight then
    ({ s with
        currentHighlight := s.currentHighlight - 1
        currentMicroStep := s.currentMicroStep - 1 }, true)
  else if s.currentStep ≤ 1 then
    (s, false)
  else
    let s' :=
      if s.currentStep - 1 < s.totalSteps then
        let c := s.currentStep - 1
        let ph := s.highlightsPerStep.getD (c - 1) 0
        { s with
            currentStep := c
            currentMicroStep := s.currentMicroStep - 1
            currentHighlight := if 0 < ph then ph else s.currentHighlight }
      else s
    (s', hasPrevStep s')

/-- Total number of micro steps of a slide: the source accumulates
`1 + highlightsPerStep[i]` over the steps (fragment.js lines 251-255). -/
def microTotal (hs : List Nat) : Nat :=
  hs.foldl (fun acc h => acc + (1 + h)) 0

/-- The state `parseAndRender` records for a slide whose valid steps have
highlight counts `hs` (fragment.js lines 257-264). -/
def initState (hs : List Nat) : SlideState :=
  { currentStep := 1
    currentHighlight := 0
    totalSteps := hs.length
    highlightsPerStep := hs
    totalMicroSteps := microTotal hs
    currentMicroStep := 1 }

/-- 1-based rank of the pair `(c, hl)` in the canonical global ordering
"chunk1-content, chunk1-hl1, ..., chunk2-content, ...". -/
def rankPair (hs : List Nat) (c hl : Nat) : Nat :=
  microTotal (hs.take (c - 1)) + 1 + hl

/-- The specification invariant: `currentMicroStep` is the 1-based rank of
`(currentStep, currentHighlight)` in the canonical ordering. -/
def StateInv (s : SlideState) : Prop :=
  s.currentMicroStep = (rankPair s.highlightsPerStep s.currentStep s.currentHighlight : Int)

instance : DecidablePred StateInv := fun s => by
  unfold StateInv; infer_instance

/-- Well-formedness of a slide state (all reachable states satisfy it). -/
def WF (s : SlideState) : Prop :=
  1 ≤ s.currentStep ∧ s.currentStep ≤ s.totalSteps ∧
    s.highlightsPerStep.length = s.totalSteps ∧
    s.currentHighlight ≤ hlAt s ∧
    s.totalMicroSteps = microTotal s.highlightsPerStep

instance : DecidablePred WF := fun s => by
  unfold WF; infer_instance

/-- Terminal-forward state: last chunk shown with all its highlights
active. -/
def TerminalForward (s : SlideState) : Prop :=
  s.totalSteps ≤ s.currentStep ∧ hlAt s ≤ s.currentHighlight

instance : DecidablePred TerminalForward := fun s => by
  unfold TerminalForward; infer_instance

/-- The pair tracked by the disclosure cursor. -/
def pairOf (s : SlideState) : Nat × Nat :=
  (s.currentStep, s.currentHighlight)

/-- State after `n` calls of `nextStep`. -/
def advanceN : Nat → SlideState → SlideState
  | 0, s => s
  | n + 1, s => (nextStep (advanceN n s)).1

/-- The `(chunk, highlight)` pair of 0-based micro index `m` in the
canonical ordering. -/
def unrank : List Nat → Nat → Nat × Nat
  | [], _ => (1, 0)
  | h :: t, m =>
    if m ≤ h then (1, m)
    else
      let p := unrank t (m - (h + 1))
      (p.1 + 1, p.2)

/-- Canonical global ordering of `(chunk, highlight)` pairs, chunks
numbered from `c`. -/
def enumPairsFrom : List Nat → Nat → List (Nat × Nat)
  | [], _ => []
  | h :: t, c => ((List.range (h + 1)).map (fun j => (c, j))) ++ enumPairsFrom t (c + 1)

/-- Canonical global ordering of `(chunk, highlight)` pairs of a slide:
chunk 1's content and highlights, then chunk 2's, and so on. -/
def enumPairs (hs : List Nat) : List (Nat × Nat) :=
  enumPairsFrom hs 1

/-- The pair transition applied by a state-changing `nextStep`. -/
def stepPair (hs : List Nat) (p : Nat × Nat) : Nat × Nat :=
  let h := hs.getD (p.1 - 1) 0
  if p.2 < h then (p.1, p.2 + 1)
  else if hs.length ≤ p.1 then p
  else (p.1 + 1, 0)

/-- The well-formed state sitting at 0-based micro index `m`. -/
def stateAt (hs : List Nat) (m : Nat) : SlideState :=
  { currentStep := (unrank hs m).1
    currentHighlight := (unrank hs m).2
    totalSteps := hs.length
    highlightsPerStep := hs
    totalMicroSteps := microTotal hs
    currentMicroStep := (m : Int) + 1 }

/-- One chunk record of the `parseAndRender` step loop (fragment.js lines
186-233). -/
structure RawStep where
  content : List Char
  effect : List Char
  duration : Nat
  nextEffect : Option (List Char) := none
  nextDuration : Option Nat := none
deriving DecidableEq, Repr

/-- `this.options.defaultEffect` (fragment.js line 16). -/
def defaultEffect : List Char := ("fade").data

/-- `this.options.duration` (fragment.js line 17). -/
def defaultDuration : Nat := 500

/-- JS `x || d` over an optional char list. -/
def jsOrList (o : Option (List Char)) (d : List Char) : List Char :=
  match o with
  | none => d
  | some s => if s.isEmpty then d else s

/-- The tail of one `stepPattern` attempt after `step`: the optional
duration group `(?:\s*,\s*duration\s*=\s*(\d+))?` (taken when it and the
following close match; giving digits back cannot help) then `\s*-->`. -/
def stepDurClose (rest : List Char) : Option (Option Nat × List Char) :=
  let close := fun (r : List Char) => litAt (("-->").data) (r.dropWhile isSpaceChar)
  let taken : Option (Option Nat × List Char) :=
    match rest.dropWhile isSpaceChar with
    | ',' :: r2 =>
      match litAt (("duration").data) (r2.dropWhile isSpaceChar) with
      | none => none
      | some r3 =>
        match r3.dropWhile isSpaceChar with
        | '=' :: r4 =>
          let r5 := r4.dropWhile isSpaceChar
          let ds := r5.takeWhile Char.isDigit
          if ds.isEmpty then none
          else (close (r5.drop ds.length)).map (fun r6 => (some (natOfDigits ds), r6))
        | _ => none
    | _ => none
  match taken with
  | some r => some r
  | none => (close rest).map (fun r6 => ((none : Option Nat), r6))

/-- One match attempt of `stepPattern`
(`<!--\s*step(?::\s*([\w-]+))?(?:\s*,\s*duration\s*=\s*(\d+))?\s*-->`,
fragment.js lines 177-178): the greedy effect run backtracks longest
first, because its trailing hyphens can belong to the closing `-->`; a
colon whose group cannot complete makes the whole attempt fail, since no
later pattern element can consume the colon. -/
def matchStepAt (cs : List Char) : Option ((Option (List Char) × Option Nat) × List Char) :=
  match litAt (("<!--").data) cs with
  | none => none
  | some r0 =>
    match litAt (("step").data) (r0.dropWhile isSpaceChar) with
    | none => none
    | some r1 =>
      match r1 with
      | ':' :: r2 =>
        let r3 := r2.dropWhile isSpaceChar
        let run := r3.takeWhile isKeyChar
        if run.isEmpty then
          (stepDurClose r1).map (fun dr => (((none : Option (List Char)), dr.1), dr.2))
        else
          match descSplitRev stepDurClose run.reverse (r3.drop run.length) with
          | some (eff, (dur, rest)) => some ((some eff, dur), rest)
          | none => (stepDurClose r1).map (fun dr => (((none : Option (List Char)), dr.1), dr.2))
      | _ => (stepDurClose r1).map (fun dr => (((none : Option (List Char)), dr.1), dr.2))

/-- `steps[steps.length - 1].nextEffect = match[1] || default;
steps[steps.length - 1].nextDuration = match[2] ? parseInt(match[2]) :
default` (fragment.js lines 204-209). -/
def setNextOnLast (steps : List RawStep) (eff : Option (List Char)) (dur : Option Nat) :
    List RawStep :=
  match steps.getLast? with
  | none => steps
  | some last =>
    steps.dropLast ++
      [{ last with
          nextEffect := some (match eff with | some e => e | none => defaultEffect)
          nextDuration := some (dur.getD defaultDuration) }]

/-- The after-loop handling (fragment.js lines 223-241): the trailing
segment becomes a step when it has visible content (its effect and
duration taken from the previous step's pending next-values), and an
all-whitespace document still yields one hidden-effect step.  `steps` is
empty here exactly when no marker matched, in which case the remaining
text is the whole content, as in the source. -/
def finishSteps (cs : List Char) (steps : List RawStep) : List RawStep :=
  let steps1 :=
    if cs ≠ [] ∧ trimTruthy cs then
      steps ++
        [{ content := cs
           effect := jsOrList (steps.getLast?.bind (fun s => s.nextEffect)) defaultEffect
           duration := jsOrNat (steps.getLast?.bind (fun s => s.nextDuration)) defaultDuration }]
    else steps
  if steps1.isEmpty then
    [{ content := cs, effect := ("none").data, duration := 0 }]
  else steps1

/-- The `while ((match = stepPattern.exec(content)))` loop of
`parseAndRender` (fragment.js lines 180-241). -/
def buildStepsAux : Nat → List Char → List RawStep → List RawStep
  | 0, cs, steps => finishSteps cs steps
  | fuel + 1, cs, steps =>
    match scanFirst matchStepAt cs with
    | none => finishSteps cs steps
    | some (pre, ((eff, dur), rest)) =>
      let steps1 :=
        if pre ≠ [] ∧ trimTruthy pre then
          steps ++
            [{ content := pre
               effect :=
                 if steps.isEmpty then ("none").data
                 else jsOrList (steps.getLast?.bind (fun s => s.nextEffect)) defaultEffect
               duration :=
                 if steps.isEmpty then 0
                 else jsOrNat (steps.getLast?.bind (fun s => s.nextDuration)) defaultDuration }]
        else steps
      let steps2 :=
        if steps1.isEmpty then
          [{ content := []
             effect := ("none").data
             duration := 0
             nextEffect := some (match eff with | some e => e | none => defaultEffect)
             nextDuration := some (dur.getD defaultDuration) }]
        else setNextOnLast steps1 eff dur
      buildStepsAux fuel rest steps2

def parseSteps (content : List Char) : List RawStep :=
  buildStepsAux content.length content []

/-- `validSteps` (fragment.js line 243). -/
def validSteps (content : List Char) : List RawStep :=
  (parseSteps content).filter (fun st => trimTruthy st.content)

/-- One match attempt of `highlightPattern` (`<(?!\/|!--)([^<>]+)>`,
fragment.js line 21). -/
def matchHlAt (cs : List Char) : Option (List Char × List Char) :=
  match cs with
  | '<' :: rest =>
    match rest with
    | [] => none
    | c2 :: _ =>
      if c2 = '/' then none
      else if (litAt (("!--").data) rest).isSome then none
      else
        let run := rest.takeWhile (fun c => c ≠ '<' && c ≠ '>')
        if run.isEmpty then none
        else
          match rest.drop run.length with
          | '>' :: r2 => some (run, r2)
          | _ => none
  | _ => none

/-- `_countHighlights` (fragment.js lines 168-171): the number of global
matches of the highlight pattern. -/
def countHighlightsAux : Nat → List Char → Nat
  | 0, _ => 0
  | fuel + 1, cs =>
    match scanFirst matchHlAt cs with
    | none => 0
    | some (_, (_, rest)) => 1 + countHighlightsAux fuel rest

def countHighlights (cs : List Char) : Nat :=
  countHighlightsAux cs.length cs

/-- The block-marker alternation `#{1,6}|>|\*|\+|-|\d+\.` of the
Markdown-prefix regex (fragment.js line 144): more than six hashes make
the alternative fail outright, since the following `\s+` cannot match a
hash. -/
def mdMarker (r : List Char) : Option (List Char × List Char) :=
  let hs := r.takeWhile (fun c => c = '#')
  if !hs.isEmpty then
    if hs.length ≤ 6 then some (hs, r.drop hs.length) else none
  else
    match r with
    | '>' :: rr => some (['>'], rr)
    | '*' :: rr => some (['*'], rr)
    | '+' :: rr => some (['+'], rr)
    | '-' :: rr => some (['-'], rr)
    | _ =>
      let ds := r.takeWhile Char.isDigit
      if ds.isEmpty then none
      else
        match r.drop ds.length with
        | '.' :: rr => some (ds ++ ['.'], rr)
        | _ => none

/-- The Markdown-prefix split of `_parseHighlights`
(`^(\s*(?:#{1,6}|>|\*|\+|-|\d+\.)\s+)([\s\S]+)$`, fragment.js lines
143-145): leading whitespace, a block marker, a greedy nonempty
whitespace run that gives one character back when the mandatory body
would otherwise be empty. -/
def mdBlockSplit (text : List Char) : Option (List Char × List Char) :=
  let w0 := text.takeWhile isSpaceChar
  let r1 := text.drop w0.length
  match mdMarker r1 with
  | none => none
  | some (mark, r2) =>
    let w2 := r2.takeWhile isSpaceChar
    if w2.isEmpty then none
    else
      let body := r2.drop w2.length
      if body.isEmpty then
        if 2 ≤ w2.length then
          some (w0 ++ mark ++ w2.take (w2.length - 1), w2.drop (w2.length - 1))
        else none
      else some (w0 ++ mark ++ w2, body)

/-- The highlight wrapper span with its 0-based index (fragment.js lines
147-158). -/
def spanOpen (idx : Nat) : List Char :=
  (("<span class=\"matcha-highlight\" data-highlight-index=\"").data) ++
    (toString idx).data ++ (("\">").data)

def spanClose : List Char := ("</span>").data

def wrapHighlight (idx : Nat) (text : List Char) : List Char :=
  match mdBlockSplit text with
  | some pr => pr.1 ++ spanOpen idx ++ pr.2 ++ spanClose
  | none => spanOpen idx ++ text ++ spanClose

/-- `_parseHighlights` (fragment.js lines 135-162): global replacement of
the highlight pattern, the running index counting matches from 0. -/
def parseHighlightsAux : Nat → List Char → Nat → List Char
  | 0, cs, _ => cs
  | fuel + 1, cs, idx =>
    match scanFirst matchHlAt cs with
    | none => cs
    | some (pre, (text, rest)) =>
      pre ++ wrapHighlight idx text ++ parseHighlightsAux fuel rest (idx + 1)

def parseHighlights (content : String) : String :=
  (parseHighlightsAux content.data.length content.data 0).asString

/-- The slide state `parseAndRender` records (fragment.js lines 243-264):
valid steps, their highlight counts, and the initial cursor. -/
def parseAndRenderState (content : String) : SlideState :=
  let vs := validSteps content.data
  let hps := vs.map (fun st => countHighlights st.content)
  { currentStep := 1
    currentHighlight := 0
    totalSteps := vs.length
    highlightsPerStep := hps
    totalMicroSteps := microTotal hps
    currentMicroStep := 1 }

end Fragment

namespace Component

open MatchaJs

/-- The double-quote and single-quote characters. -/
def dquote : Char := Char.ofNat 34

def squote : Char := Char.ofNat 39

/-- Third value alternative of the parameter regex: a nonempty run of
non-comma, non-whitespace characters (`[^,\s]+`). -/
def unquotedValue (key : List Char) (r : List Char) :
    Option ((String × String) × List Char) :=
  let v := r.takeWhile (fun c => !(c = ',' || isSpaceChar c))
  if v.isEmpty then none
  else some ((key.asString, v.asString), r.drop v.length)

/-- One match attempt of the parameter regex
`([\w-]+)\s*=\s*(?:"([^"]*)"|dquoted-alt|([^,\s]+))` of
`Component._parseParams` (component.js line 390) at the current position:
greedy key run (backtracking into the key can never help, because the
characters it gives back are `[\w-]` characters, never whitespace or
`=`), `\s*`, `=`, `\s*`, then the ordered value alternation:
double-quoted string, single-quoted string, else a nonempty run of
non-comma non-space characters (which is also the fallback the regex
engine reaches when an opening quote has no closing quote). -/
def matchParamAt (cs : List Char) : Option ((String × String) × List Char) :=
  let key := cs.takeWhile isKeyChar
  if key.isEmpty then none
  else
    match (cs.dropWhile isKeyChar).dropWhile isSpaceChar with
    | '=' :: r2 =>
      let r3 := r2.dropWhile isSpaceChar
      if h3 : r3 = [] then none
      else
        let q := r3.head (by exact h3)
        let r4 := r3.tail
        if q = dquote then
          let v := r4.takeWhile (fun c => c ≠ dquote)
          match r4.dropWhile (fun c => c ≠ dquote) with
          | _ :: r5 => some ((key.asString, v.asString), r5)
          | [] => unquotedValue key r3
        else if q = squote then
          let v := r4.takeWhile (fun c => c ≠ squote)
          match r4.dropWhile (fun c => c ≠ squote) with
          | _ :: r5 => some ((key.asString, v.asString), r5)
          | [] => unquotedValue key r3
        else unquotedValue key r3
    | _ => none

/-- JS object assignment `obj[key] = value`: overwrite the existing entry
in place, else append (generic in the value type, used for both the
parameter maps and the component store). -/
def objInsert {α : Type} (o : List (String × α)) (k : String) (v : α) : List (String × α) :=
  if o.any (fun p => p.1 = k) then o.map (fun p => if p.1 = k then (k, v) else p)
  else o ++ [(k, v)]

/-- The `regex.exec` scan: try the match attempt at each position from
left to right. -/
def findParamMatch : List Char → Option ((String × String) × List Char)
  | [] => none
  | c :: cs =>
    match matchParamAt (c :: cs) with
    | some r => some r
    | none => findParamMatch cs

/-- The `while ((match = regex.exec(paramStr)) !== null)` loop of
`_parseParams`: each match assigns `params[key] = value` and scanning
resumes after the match.  Every match consumes at least one character, so
the string length bounds the number of iterations. -/
def parseParamsAux : Nat → List Char → List (String × String) → List (String × String)
  | 0, _, o => o
  | fuel + 1, cs, o =>
    match findParamMatch cs with
    | none => o
    | some ((k, v), rest) => parseParamsAux fuel rest (objInsert o k v)

/-- `Component._parseParams` (component.js lines 385-400). -/
def parseParams (paramStr : String) : List (String × String) :=
  parseParamsAux paramStr.data.length paramStr.data []

/-- Template variable map: JS object of string values.  Numeric values the
source stores (the loop bindings) are kept in decimal string form; every
use site coerces through `String(...)`/`Number(...)`, for which the two
representations are observationally equal. -/
abbrev Vars : Type := List (String × String)

/-- The literal tokens of the template constructs, with braces escaped. -/
def litVarOpen : List Char := ("\x7b\x7b").data

def litCloseBraces : List Char := ("\x7d\x7d").data

def litRepeatOpen : List Char := ("\x7b\x7b#repeat").data

def litRepeatEnd : List Char := ("\x7b\x7b/repeat\x7d\x7d").data

def litEqOpen : List Char := ("\x7b\x7b#eq").data

def litEqEnd : List Char := ("\x7b\x7b/eq\x7d\x7d").data

def litNeqOpen : List Char := ("\x7b\x7b#neq").data

def litNeqEnd : List Char := ("\x7b\x7b/neq\x7d\x7d").data

def litIfOpen : List Char := ("\x7b\x7b#if").data

def litElse : List Char := ("\x7b\x7b#else\x7d\x7d").data

def litIfEnd : List Char := ("\x7b\x7b/if\x7d\x7d").data

def litGtOpen : List Char := ("\x7b\x7b#gt").data

def litGtEnd : List Char := ("\x7b\x7b/gt\x7d\x7d").data

def litLtOpen : List Char := ("\x7b\x7b#lt").data

def litLtEnd : List Char := ("\x7b\x7b/lt\x7d\x7d").data

/-- Word-run alternative `[\w$]+` of the repeat count expression. -/
def repeatCountToken (r2 : List Char) : Option (List Char × List Char) :=
  let tk := r2.takeWhile isVarChar
  if tk.isEmpty then none
  else (litAt litCloseBraces (r2.drop tk.length)).map (fun r3 => (tk, r3))

/-- One match attempt of `_processRepeat`'s pattern (component.js line
445) at the current position: the open token, `\s+`, the count expression
`(\d+|[\w$]+)` followed by the closing braces (giving characters back
cannot help either alternative, as they are digits or word characters,
never a closing brace), then the lazy body up to the first end token. -/
def matchRepeatAt (cs : List Char) : Option (List Char × List Char × List Char) :=
  match litAt litRepeatOpen cs with
  | none => none
  | some r1 =>
    let w := r1.takeWhile isSpaceChar
    if w.isEmpty then none
    else
      let r2 := r1.drop w.length
      let ds := r2.takeWhile Char.isDigit
      let cntTry : Option (List Char × List Char) :=
        if !ds.isEmpty then
          match litAt litCloseBraces (r2.drop ds.length) with
          | some r3 => some (ds, r3)
          | none => repeatCountToken r2
        else repeatCountToken r2
      match cntTry with
      | none => none
      | some (cnt, r3) =>
        (splitFirstP (litAt litRepeatEnd) r3).map (fun br => (cnt, br.1, br.2))

/-- Count resolution of `_processRepeat` (component.js lines 449-453):
`parseInt` of the literal, else `parseInt` of the variable's value when
the context has the name; `none` is `NaN`. -/
def resolveRepeatCount (cnt : List Char) (vars : Vars) : Option Int :=
  match jsParseInt cnt with
  | some n => some n
  | none =>
    match List.lookup cnt.asString (vars : List (String × String)) with
    | some v => jsParseInt v.data
    | none => none

/-- The loop context `{ ...vars, $i: i + 1, $i0: i }` (component.js line
458). -/
def loopVars (vars : Vars) (i : Nat) : Vars :=
  objInsert (objInsert (vars : List (String × String)) ("$i") (toString (i + 1))) ("$i0") (toString i)

/-- One match attempt of the eq or neq pattern
(`\{\{#eq\s+([\w$]+)\s+(.+?)\}\}([\s\S]*?)\{\{\/eq\}\}`, component.js
lines 471 and 492): name token, then `\s+` backtracking into the lazy
value group (which must be nonempty and cannot contain a newline) followed
by the closing braces, then the lazy body up to the first end token. -/
def matchCmpStrAt (openLit closeLit : List Char) (cs : List Char) :
    Option (List Char × List Char × List Char × List Char) :=
  match litAt openLit cs with
  | none => none
  | some r1 =>
    let w := r1.takeWhile isSpaceChar
    if w.isEmpty then none
    else
      let r2 := r1.drop w.length
      let name := r2.takeWhile isVarChar
      if name.isEmpty then none
      else
        let r3 := r2.drop name.length
        let w2 := r3.takeWhile isSpaceChar
        if w2.isEmpty then none
        else
          let stopV := fun rest =>
            (lazyScanP (litAt litCloseBraces) rest).bind
              (fun vr => if vr.1.any (fun c => c = '\n') then none else some vr)
          match descSplitRev stopV w2.reverse (r3.drop w2.length) with
          | none => none
          | some (_, (value, r4)) =>
            (splitFirstP (litAt closeLit) r4).map
              (fun br => (name, value, br.1, br.2))

/-- `value.trim().replace` of one leading and one trailing quote
(component.js line 477). -/
def stripQuotesEnds (cs : List Char) : List Char :=
  let s1 :=
    match cs with
    | c :: r => if c = dquote || c = squote then r else cs
    | [] => []
  match s1.reverse with
  | c :: r => if c = dquote || c = squote then r.reverse else s1
  | [] => s1

/-- `String(vars[varName])` with a missing name giving the empty string
(component.js lines 474-476). -/
def eqActual (vars : Vars) (name : List Char) : List Char :=
  match List.lookup name.asString (vars : List (String × String)) with
  | some v => v.data
  | none => []

/-- The literal an eq or neq construct compares against. -/
def eqCompare (value : List Char) : List Char :=
  stripQuotesEnds (jsTrim value)

/-- Scan for the end of an if construct
(`([\s\S]*?)(?:\{\{#else\}\}([\s\S]*?))?\{\{\/if\}\}`): the lazy true
branch stops at the first position carrying either an else token followed
somewhere by an end token, or an end token directly. -/
def scanIfBody : List Char → Option (List Char × List Char × List Char)
  | [] => none
  | c :: cs =>
    match litAt litElse (c :: cs) with
    | some afterElse =>
      match splitFirstP (litAt litIfEnd) afterElse with
      | some pr => some ([], pr.1, pr.2)
      | none => (scanIfBody cs).map (fun tfr => (c :: tfr.1, tfr.2.1, tfr.2.2))
    | none =>
      match litAt litIfEnd (c :: cs) with
      | some rest => some ([], [], rest)
      | none => (scanIfBody cs).map (fun tfr => (c :: tfr.1, tfr.2.1, tfr.2.2))

/-- One match attempt of `_processIf`'s pattern (component.js line 513):
open token, `\s+`, name, closing braces, then the body scan. -/
def matchIfAt (cs : List Char) : Option (List Char × List Char × List Char × List Char) :=
  match litAt litIfOpen cs with
  | none => none
  | some r1 =>
    let w := r1.takeWhile isSpaceChar
    if w.isEmpty then none
    else
      let r2 := r1.drop w.length
      let name := r2.takeWhile isVarChar
      if name.isEmpty then none
      else
        match litAt litCloseBraces (r2.drop name.length) with
        | none => none
        | some r3 =>
          (scanIfBody r3).map (fun tfr => (name, tfr.1, tfr.2.1, tfr.2.2))

/-- Truthiness of `_processIf` (component.js lines 520-527): the name is
present and its value is none of `""`, `"0"`, `"false"`. -/
def ifTruthy (vars : Vars) (name : String) : Bool :=
  match List.lookup name (vars : List (String × String)) with
  | none => false
  | some v => !(v = "") && !(v = "0") && !(v = "false")

/-- One match attempt of the gt or lt pattern
(`\{\{#gt\s+([\w$]+)\s+(\d+)\}\}([\s\S]*?)\{\{\/gt\}\}`, component.js
lines 544 and 565). -/
def matchCmpNumAt (openLit closeLit : List Char) (cs : List Char) :
    Option (List Char × List Char × List Char × List Char) :=
  match litAt openLit cs with
  | none => none
  | some r1 =>
    let w := r1.takeWhile isSpaceChar
    if w.isEmpty then none
    else
      let r2 := r1.drop w.length
      let name := r2.takeWhile isVarChar
      if name.isEmpty then none
      else
        let r3 := r2.drop name.length
        let w2 := r3.takeWhile isSpaceChar
        if w2.isEmpty then none
        else
          let r4 := r3.drop w2.length
          let ds := r4.takeWhile Char.isDigit
          if ds.isEmpty then none
          else
            match litAt litCloseBraces (r4.drop ds.length) with
            | none => none
            | some r5 =>
              (splitFirstP (litAt closeLit) r5).map
                (fun br => (name, ds, br.1, br.2))

/-- `Number(vars[varName])` with a missing name coercing to 0
(component.js lines 547-549). -/
def numValue (vars : Vars) (name : List Char) : Option Int :=
  match List.lookup name.asString (vars : List (String × String)) with
  | some v => jsNumber v.data
  | none => some 0

/-- One match attempt of the plain variable pattern
`\{\{(\$?[\w-]+)\}\}` (component.js line 51): the optional dollar cannot
be dropped by backtracking, because the run class excludes `$`. -/
def matchVarAt (cs : List Char) : Option (List Char × List Char) :=
  match litAt litVarOpen cs with
  | none => none
  | some r1 =>
    match r1 with
    | c :: r2 =>
      if c = '$' then
        let run := r2.takeWhile isKeyChar
        if run.isEmpty then none
        else (litAt litCloseBraces (r2.drop run.length)).map (fun r3 => (c :: run, r3))
      else
        let run := r1.takeWhile isKeyChar
        if run.isEmpty then none
        else (litAt litCloseBraces (r1.drop run.length)).map (fun r3 => (run, r3))
    | [] => none

/-- The final variable substitution pass of `_renderTemplate`
(component.js lines 428-434): present names are replaced by their values,
missing names keep the literal placeholder. -/
def substVarsAux (vars : Vars) : Nat → List Char → List Char
  | 0, cs => cs
  | fuel + 1, cs =>
    match scanFirst matchVarAt cs with
    | none => cs
    | some (pre, (name, rest)) =>
      pre ++
        (match List.lookup name.asString (vars : List (String × String)) with
         | some v => v.data
         | none => litVarOpen ++ name ++ litCloseBraces) ++
        substVarsAux vars fuel rest

def substVars (cs : List Char) (vars : Vars) : List Char :=
  substVarsAux vars cs.length cs

mutual

/-- `Component._renderTemplate` (component.js lines 406-437): the six
construct passes in source order, then plain variable substitution.  The
fuel bounds the recursion depth; each pass and each recursive body render
consumes one unit. -/
def renderTemplateAux : Nat → List Char → Vars → List Char
  | 0, t, _ => t
  | fuel + 1, t, vars =>
    let r1 := processRepeatAux fuel t vars
    let r2 := processEqAux fuel r1 vars
    let r3 := processNeqAux fuel r2 vars
    let r4 := processIfAux fuel r3 vars
    let r5 := processGtAux fuel r4 vars
    let r6 := processLtAux fuel r5 vars
    substVars r6 vars

/-- `Component._processRepeat` (component.js lines 443-463). -/
def processRepeatAux : Nat → List Char → Vars → List Char
  | 0, t, _ => t
  | fuel + 1, t, vars =>
    match scanFirst matchRepeatAt t with
    | none => t
    | some (pre, (cnt, body, rest)) =>
      pre ++
        (match resolveRepeatCount cnt vars with
         | none => []
         | some n =>
           if n ≤ 0 then []
           else List.flatten ((List.range n.toNat).map (fun i =>
             renderTemplateAux fuel body (loopVars vars i)))) ++
        processRepeatAux fuel rest vars

/-- `Component._processEq` (component.js lines 469-484). -/
def processEqAux : Nat → List Char → Vars → List Char
  | 0, t, _ => t
  | fuel + 1, t, vars =>
    match scanFirst (matchCmpStrAt litEqOpen litEqEnd) t with
    | none => t
    | some (pre, (name, value, body, rest)) =>
      pre ++
        (if eqActual vars name = eqCompare value then renderTemplateAux fuel body vars
         else []) ++
        processEqAux fuel rest vars

/-- `Component._processNeq` (component.js lines 490-505). -/
def processNeqAux : Nat → List Char → Vars → List Char
  | 0, t, _ => t
  | fuel + 1, t, vars =>
    match scanFirst (matchCmpStrAt litNeqOpen litNeqEnd) t with
    | none => t
    | some (pre, (name, value, body, rest)) =>
      pre ++
        (if eqActual vars name = eqCompare value then []
         else renderTemplateAux fuel body vars) ++
        processNeqAux fuel rest vars

/-- `Component._processIf` (component.js lines 511-536): both branches
are rendered recursively, the else branch defaulting to empty. -/
def processIfAux : Nat → List Char → Vars → List Char
  | 0, t, _ => t
  | fuel + 1, t, vars =>
    match scanFirst matchIfAt t with
    | none => t
    | some (pre, (name, tc, fc, rest)) =>
      pre ++
        renderTemplateAux fuel (if ifTruthy vars name.asString then tc else fc) vars ++
        processIfAux fuel rest vars

/-- `Component._processGt` (component.js lines 542-557). -/
def processGtAux : Nat → List Char → Vars → List Char
  | 0, t, _ => t
  | fuel + 1, t, vars =>
    match scanFirst (matchCmpNumAt litGtOpen litGtEnd) t with
    | none => t
    | some (pre, (name, ds, body, rest)) =>
      pre ++
        (match numValue vars name, jsNumber ds with
         | some a, some b => if a > b then renderTemplateAux fuel body vars else []
         | _, _ => []) ++
        processGtAux fuel rest vars

/-- `Component._processLt` (component.js lines 563-578). -/
def processLtAux : Nat → List Char → Vars → List Char
  | 0, t, _ => t
  | fuel + 1, t, vars =>
    match scanFirst (matchCmpNumAt litLtOpen litLtEnd) t with
    | none => t
    | some (pre, (name, ds, body, rest)) =>
      pre ++
        (match numValue vars name, jsNumber ds with
         | some a, some b => if a < b then renderTemplateAux fuel body vars else []
         | _, _ => []) ++
        processLtAux fuel rest vars

end

/-- `Component._renderTemplate` entry point over strings. -/
def renderTemplate (fuel : Nat) (template : String) (vars : Vars) : String :=
  (renderTemplateAux fuel template.data vars).asString

/-- The built-in variables of `renderComponents` (component.js lines
268-272), in JS object-literal insertion order. -/
def builtinVars (slideIndex totalSlides : Nat) : Vars :=
  [("$slideIndex", toString slideIndex),
   ("$slideNumber", toString (slideIndex + 1)),
   ("$totalSlides", toString totalSlides)]

/-- JS object spread: copy the entries of `p` into `o` in order, later
keys overwriting earlier ones in place. -/
def spreadInto (o p : Vars) : Vars :=
  (p : List (String × String)).foldl (fun acc kv => objInsert acc kv.1 kv.2) (o : List (String × String))

/-- The variable merge of `renderComponents` (component.js line 280):
`{ ...builtinVars, ...this.globalVars, ...usage.params }`. -/
def mergedVars (slideIndex totalSlides : Nat) (globalVars params : Vars) : Vars :=
  spreadInto (spreadInto (spreadInto [] (builtinVars slideIndex totalSlides)) globalVars) params

/-- The content `renderComponents` produces for one usage before the
Markdown stage (component.js line 283): the component template rendered
under the merged variables. -/
def renderComponentContent (fuel : Nat) (template : String) (slideIndex totalSlides : Nat)
    (globalVars params : Vars) : String :=
  renderTemplate fuel template (mergedVars slideIndex totalSlides globalVars params)

end Component

namespace Image

/-- `Image._parseParams` (image.js lines 97-112): the regex and the exec
loop are character-for-character identical to the component module's. -/
def parseParams (paramStr : String) : List (String × String) :=
  Component.parseParamsAux paramStr.data.length paramStr.data []

end Image

namespace Component

open MatchaJs

/-- A registered component definition (component.js lines 196-201). -/
structure ComponentDef where
  name : String
  template : String
  position : String
  usageCount : Nat
deriving DecidableEq, Repr

/-- `this.options.defaultPosition` (component.js line 53). -/
def defaultPosition : String := "bottom-right"

/-- The component store `this.components`, a JS object keyed by name. -/
abbrev ComponentStore : Type := List (String × ComponentDef)

/-- The end-token subpattern of `definePattern`:
`<!--\s*enddefine\s*-->` (component.js line 47). -/
def matchEnddefineAt (cs : List Char) : Option (List Char) :=
  (litAt (("<!--").data) cs).bind (fun r1 =>
    (litAt (("enddefine").data) (r1.dropWhile isSpaceChar)).bind (fun r2 =>
      litAt (("-->").data) (r2.dropWhile isSpaceChar)))

/-- The optional define-parameter group `(?:\s*,\s*(.+?))?` immediately
followed by the close `\s*-->`: the inner `\s*` backtracks into the lazy
value group (tried longest whitespace first), the value may not contain a
newline, and it stops at the first position where `\s*-->` matches. -/
def defineParamsGroup (rest : List Char) : Option (List Char × List Char) :=
  match rest.dropWhile isSpaceChar with
  | ',' :: r2 =>
    let w2 := r2.takeWhile isSpaceChar
    let stopV := fun (r : List Char) =>
      (lazyScanP (fun r3 => litAt (("-->").data) (r3.dropWhile isSpaceChar)) r).bind
        (fun vr => if vr.1.any (fun c => c = '\n') then none else some vr)
    match descSplitRev0 stopV w2.reverse (r2.drop w2.length) with
    | none => none
    | some (_, (value, after)) => some (value, after)
  | _ => none

/-- After the define name: the optional parameter group (taken when its
whole continuation matches, exactly as the regex engine prefers), else the
direct close `\s*-->`; the first component is `match[2]`, `none` for the
group not taken. -/
def defineAfterName (rest : List Char) : Option (Option (List Char) × List Char) :=
  match defineParamsGroup rest with
  | some (v, after) => some (some v, after)
  | none => (litAt (("-->").data) (rest.dropWhile isSpaceChar)).map (fun r => (none, r))

/-- One match attempt of `definePattern`
(`<!--\s*define:\s*([\w-]+)(?:\s*,\s*(.+?))?\s*-->([\s\S]*?)<!--\s*enddefine\s*-->`,
component.js line 47) at the current position.  The greedy name run
backtracks (longest first) because its trailing hyphens can belong to the
closing `-->`.  Returns `(name, match[2] or empty, template)` and the
remainder after the end token. -/
def matchDefineAt (cs : List Char) :
    Option ((List Char × List Char × List Char) × List Char) :=
  match litAt (("<!--").data) cs with
  | none => none
  | some r1 =>
    match litAt (("define:").data) (r1.dropWhile isSpaceChar) with
    | none => none
    | some r2 =>
      let r3 := r2.dropWhile isSpaceChar
      let run := r3.takeWhile isKeyChar
      if run.isEmpty then none
      else
        match descSplitRev defineAfterName run.reverse (r3.drop run.length) with
        | none => none
        | some (name, (params, afterOpen)) =>
          match splitFirstP matchEnddefineAt afterOpen with
          | none => none
          | some (body, rest) => some ((name, params.getD [], body), rest)

/-- The matches of the `definePattern` exec loop in document order
(component.js lines 186-206); every match consumes at least one character,
so the text length bounds the match count. -/
def scanDefsAux : Nat → List Char → List (List Char × List Char × List Char)
  | 0, _ => []
  | fuel + 1, cs =>
    match scanFirst matchDefineAt cs with
    | none => []
    | some (_, (d, rest)) => d :: scanDefsAux fuel rest

def scanDefs (cs : List Char) : List (List Char × List Char × List Char) :=
  scanDefsAux cs.length cs

/-- `markdown.replace(this.options.definePattern, "")` (component.js line
209): the matched spans removed, everything else kept. -/
def removeDefsAux : Nat → List Char → List Char
  | 0, cs => cs
  | fuel + 1, cs =>
    match scanFirst matchDefineAt cs with
    | none => cs
    | some (pre, (_, rest)) => pre ++ removeDefsAux fuel rest

/-- The `ComponentDef` one exec-loop iteration registers (component.js
lines 189-201): trimmed name and template, position from the define-time
parameters falling back to the default. -/
def mkComponentDef (d : List Char × List Char × List Char) : ComponentDef :=
  { name := (jsTrim d.1).asString
    template := (jsTrim d.2.2).asString
    position := jsOrStr (List.lookup ("position") (parseParams d.2.1.asString)) defaultPosition
    usageCount := 0 }

/-- `this.components[componentName] = {...}` for one match. -/
def registerDef (store : ComponentStore) (d : List Char × List Char × List Char) :
    ComponentStore :=
  objInsert store (jsTrim d.1).asString (mkComponentDef d)

/-- `Component.extractDefinitions` (component.js lines 180-212): register
every match of the exec loop into the store in order, and return the text
with the matched spans removed. -/
def extractDefinitions (store : ComponentStore) (markdown : String) :
    ComponentStore × String :=
  ((scanDefs markdown.data).foldl registerDef store,
    (removeDefsAux markdown.data.length markdown.data).asString)

end Component

namespace Style

open MatchaJs

/-- One match attempt of `<!--\s*global-style:\s*(.+?)\s*-->` (style.js
line 557): the `\s*` before the lazy value backtracks into it, the value
may not contain a newline and stops at the first `\s*-->`.  Only the text
removal matters for the build pipeline; the style-merge side effect does
not touch the component store or the slide text. -/
def matchGlobalStyleAt (cs : List Char) : Option (List Char) :=
  match litAt (("<!--").data) cs with
  | none => none
  | some r1 =>
    match litAt (("global-style:").data) (r1.dropWhile isSpaceChar) with
    | none => none
    | some r2 =>
      let w := r2.takeWhile isSpaceChar
      let stopV := fun (r : List Char) =>
        (lazyScanP (fun r3 => litAt (("-->").data) (r3.dropWhile isSpaceChar)) r).bind
          (fun vr => if vr.1.any (fun c => c = '\n') then none else some vr)
      match descSplitRev0 stopV w.reverse (r2.drop w.length) with
      | none => none
      | some (_, (_, rest)) => some rest

def removeGlobalStylesAux : Nat → List Char → List Char
  | 0, cs => cs
  | fuel + 1, cs =>
    match scanFirst matchGlobalStyleAt cs with
    | none => cs
    | some (pre, rest) => pre ++ removeGlobalStylesAux fuel rest

/-- The text-removal effect of `Style.extractGlobalStyles` (style.js lines
556-562). -/
def extractGlobalStyles (markdown : String) : String :=
  (removeGlobalStylesAux markdown.data.length markdown.data).asString

end Style

namespace Matcha

open MatchaJs

/-- `$` of a multiline regex: end of input or a newline immediately
ahead. -/
def lineEnd (cs : List Char) : Bool :=
  match cs with
  | [] => true
  | c :: _ => c = '\n'

/-- Backtracking of the greedy `\s*` before a multiline `$`: take the
largest number of leading whitespace characters whose end position is a
line end. -/
def globalTailAux (cs : List Char) : Nat → Option (List Char)
  | 0 => if lineEnd cs then some cs else none
  | j + 1 =>
    if lineEnd (cs.drop (j + 1)) then some (cs.drop (j + 1)) else globalTailAux cs j

def matchGlobalTail (cs : List Char) : Option (List Char) :=
  globalTailAux cs (cs.takeWhile isSpaceChar).length

/-- The match of `/^([\s\S]*?)---global\s*$/m` (matcha.js line 118): the
lazy leading group always starts at position 0, so the match happens at
the earliest occurrence of the literal `---global` whose tail matches
`\s*$`; the returned pair is the group (the global section) and the text
after `match[0]`. -/
def findGlobalSplit : List Char → Option (List Char × List Char)
  | [] => none
  | c :: cs =>
    match litAt (("---global").data) (c :: cs) with
    | some r1 =>
      match matchGlobalTail r1 with
      | some rest => some ([], rest)
      | none => (findGlobalSplit cs).map (fun pr => (c :: pr.1, pr.2))
    | none => (findGlobalSplit cs).map (fun pr => (c :: pr.1, pr.2))

/-- The ---global split of `Matcha.parseAndBuild` (matcha.js lines
114-122): on a match, the global section is the captured group and the
slide section is the document after `match[0]`; otherwise the global
section is empty and the slide section is the whole document. -/
def splitGlobal (markdown : String) : String × String :=
  match findGlobalSplit markdown.data with
  | some (g, rest) => (g.asString, rest.asString)
  | none => ("", markdown)

/-- Backtracking tail of one slide-separator match, also reporting how
many whitespace characters the separator consumed after `---`. -/
def sepTailAux (cs : List Char) : Nat → Option (Nat × List Char)
  | 0 => if lineEnd cs then some (0, cs) else none
  | j + 1 =>
    if lineEnd (cs.drop (j + 1)) then some (j + 1, cs.drop (j + 1)) else sepTailAux cs j

/-- One separator match attempt of `split(/^\s*---\s*$/gm)` (matcha.js
line 139) at a line start: leading whitespace (newlines included), the
literal `---`, then trailing whitespace up to a line end.  The boolean
reports whether the last consumed character was a newline, which decides
whether the continuation point is again a line start. -/
def matchSepAt (cs : List Char) : Option (List Char × Bool) :=
  let w1 := cs.takeWhile isSpaceChar
  match litAt (("---").data) (cs.drop w1.length) with
  | none => none
  | some r2 =>
    match sepTailAux r2 (r2.takeWhile isSpaceChar).length with
    | none => none
    | some (j, rest) =>
      some (rest,
        (match (r2.take j).getLast? with
         | some c => c = '\n'
         | none => false))

/-- The `String.prototype.split` loop over the separator regex: pieces
between separator matches, separators attempted only where `^` holds. -/
def splitSlidesAux : Nat → List Char → Bool → List Char → List (List Char)
  | 0, cs, _, acc => [acc ++ cs]
  | fuel + 1, cs, atStart, acc =>
    if atStart then
      match matchSepAt cs with
      | some (rest, lastNl) => acc :: splitSlidesAux fuel rest lastNl []
      | none =>
        match cs with
        | [] => [acc]
        | c :: cs2 => splitSlidesAux fuel cs2 (c = '\n') (acc ++ [c])
    else
      match cs with
      | [] => [acc]
      | c :: cs2 => splitSlidesAux fuel cs2 (c = '\n') (acc ++ [c])

/-- `processedMarkdown.split(/^\s*---\s*$/gm)` (matcha.js line 139). -/
def splitSlides (s : String) : List String :=
  (splitSlidesAux (s.data.length + 1) s.data true []).map List.asString

/-- The document-level portion of `Matcha.parseAndBuild` (matcha.js lines
106-141) up to the slide-block split: the ---global split, component
definition extraction from the global section and then from the slide
section into the same store (so slide-section definitions overwrite
global-section ones of the same name), global-style marker removal from
the slide residual, and the slide separator split.  The style and
global-usage processing of the global residual and all DOM construction
mutate neither the component store nor the slide texts. -/
def parseAndBuildBlocks (markdown : String) : Component.ComponentStore × List String :=
  let gs := splitGlobal markdown
  let r1 := Component.extractDefinitions [] gs.1
  let r2 := Component.extractDefinitions r1.1 gs.2
  let processedMarkdown := Style.extractGlobalStyles r2.2
  (r2.1, splitSlides processedMarkdown)

end Matcha

/-
Theorems.
-/

namespace Fragment

theorem microTotal_shift (t : List Nat) : ∀ a : Nat,
    t.foldl (fun acc h => acc + (1 + h)) a = a + microTotal t := by
  induction t with
  | nil => intro a; simp [microTotal]
  | cons h t ih =>
    intro a
    simp only [microTotal, List.foldl_cons] at *
    rw [ih, ih (0 + (1 + h))]
    omega

theorem microTotal_cons (h : Nat) (t : List Nat) :
    microTotal (h :: t) = 1 + h + microTotal t := by
  simp only [microTotal, List.foldl_cons]
  rw [microTotal_shift]
  show 0 + (1 + h) + microTotal t = 1 + h + microTotal t
  omega

theorem microTotal_append (a b : List Nat) :
    microTotal (a ++ b) = microTotal a + microTotal b := by
  simp only [microTotal, List.foldl_append]
  rw [microTotal_shift (a := List.foldl (fun acc h => acc + (1 + h)) 0 a)]
  rfl

theorem microTotal_pos (hs : List Nat) (h : hs ≠ []) : 0 < microTotal hs := by
  cases hs with
  | nil => exact absurd rfl h
  | cons a t => rw [microTotal_cons]; omega

theorem unrank_fst_pos (hs : List Nat) (m : Nat) : 1 ≤ (unrank hs m).1 := by
  induction hs generalizing m with
  | nil => simp [unrank]
  | cons h t ih =>
    unfold unrank
    by_cases hm : m ≤ h
    · simp [hm]
    · simp only [hm, if_false]
      have := ih (m - (h + 1))
      omega

theorem unrank_bounds (hs : List Nat) (m : Nat) (hm : m < microTotal hs) :
    (unrank hs m).1 ≤ hs.length ∧
      (unrank hs m).2 ≤ hs.getD ((unrank hs m).1 - 1) 0 := by
  induction hs generalizing m with
  | nil => simp [microTotal] at hm
  | cons h t ih =>
    rw [microTotal_cons] at hm
    unfold unrank
    by_cases hmh : m ≤ h
    · simp [hmh]
    · simp only [hmh, if_false]
      have h1 := unrank_fst_pos t (m - (h + 1))
      have h2 := ih (m - (h + 1)) (by omega)
      constructor
      · simpa using by omega
      · have : (unrank t (m - (h + 1))).1 + 1 - 1 = ((unrank t (m - (h + 1))).1 - 1) + 1 := by
          omega
        rw [this, List.getD_cons_succ]
        exact h2.2

theorem unrank_cons (h : Nat) (t : List Nat) (m : Nat) :
    unrank (h :: t) m =
      if m ≤ h then (1, m)
      else ((unrank t (m - (h + 1))).1 + 1, (unrank t (m - (h + 1))).2) := by
  rfl

theorem stepPair_shift (h : Nat) (t : List Nat) (p : Nat × Nat) (hp : 1 ≤ p.1) :
    stepPair (h :: t) (p.1 + 1, p.2) = ((stepPair t p).1 + 1, (stepPair t p).2) := by
  unfold stepPair
  have hidx : p.1 + 1 - 1 = (p.1 - 1) + 1 := by omega
  simp only [hidx, List.getD_cons_succ, List.length_cons]
  by_cases h1 : p.2 < t[p.1 - 1]?.getD 0
  · simp [h1]
  · by_cases h2 : t.length ≤ p.1
    · simp [h1, h2, (show t.length + 1 ≤ p.1 + 1 by omega)]
    · simp [h1, h2, (show ¬ t.length + 1 ≤ p.1 + 1 by omega)]

theorem stepPair_unrank (hs : List Nat) (m : Nat) (hm : m + 1 < microTotal hs) :
    stepPair hs (unrank hs m) = unrank hs (m + 1) := by
  induction hs generalizing m with
  | nil => simp [microTotal] at hm
  | cons h t ih =>
    rw [microTotal_cons] at hm
    by_cases hmh : m ≤ h
    · by_cases hlt : m < h
      · -- next highlight within the first chunk
        rw [unrank_cons, unrank_cons, if_pos hmh, if_pos (show m + 1 ≤ h by omega)]
        unfold stepPair
        simp [hlt]
      · -- m = h: move to the second chunk
        have hme : m = h := by omega
        cases t with
        | nil => simp [microTotal] at hm; omega
        | cons h2 t2 =>
          rw [unrank_cons h (h2 :: t2) m, if_pos hmh]
          rw [unrank_cons h (h2 :: t2) (m + 1), if_neg (show ¬ m + 1 ≤ h by omega)]
          rw [(show m + 1 - (h + 1) = 0 by omega), unrank_cons h2 t2 0, if_pos (Nat.zero_le h2)]
          unfold stepPair
          simp only [(show (1 : Nat) - 1 = 0 by rfl), List.getD_cons_zero, List.length_cons]
          rw [if_neg (show ¬ m < h by omega), if_neg (show ¬ t2.length + 1 + 1 ≤ 1 by omega)]
    · -- inside a later chunk: shift the tail result
      rw [unrank_cons, unrank_cons, if_neg hmh, if_neg (show ¬ m + 1 ≤ h by omega)]
      rw [(show m + 1 - (h + 1) = (m - (h + 1)) + 1 by omega)]
      rw [stepPair_shift h t (unrank t (m - (h + 1))) (unrank_fst_pos t _)]
      rw [ih (m - (h + 1)) (by omega)]

theorem unrank_can_advance (hs : List Nat) (m : Nat) (hm : m + 1 < microTotal hs) :
    (unrank hs m).2 < hs.getD ((unrank hs m).1 - 1) 0 ∨ (unrank hs m).1 < hs.length := by
  induction hs generalizing m with
  | nil => simp [microTotal] at hm
  | cons h t ih =>
    rw [microTotal_cons] at hm
    by_cases hmh : m ≤ h
    · rw [unrank_cons, if_pos hmh]
      by_cases hlt : m < h
      · left; simpa using hlt
      · right
        cases t with
        | nil => simp [microTotal] at hm; omega
        | cons h2 t2 => simp
    · rw [unrank_cons, if_neg hmh]
      have h1 := unrank_fst_pos t (m - (h + 1))
      have h2 := ih (m - (h + 1)) (by omega)
      have hidx : (unrank t (m - (h + 1))).1 + 1 - 1 = ((unrank t (m - (h + 1))).1 - 1) + 1 := by
        omega
      rcases h2 with h2 | h2
      · left; simpa [hidx, List.getD_cons_succ] using h2
      · right; simpa using by omega

theorem unrank_last (hs : List Nat) (h : hs ≠ []) :
    unrank hs (microTotal hs - 1) = (hs.length, hs.getD (hs.length - 1) 0) := by
  induction hs with
  | nil => exact absurd rfl h
  | cons a t ih =>
    rw [microTotal_cons]
    cases t with
    | nil =>
      rw [unrank_cons, if_pos (show 1 + a + microTotal [] - 1 ≤ a by simp [microTotal])]
      simp [microTotal]
    | cons b t2 =>
      have hpos : 0 < microTotal (b :: t2) := microTotal_pos _ (by simp)
      rw [unrank_cons, if_neg (show ¬ 1 + a + microTotal (b :: t2) - 1 ≤ a by omega)]
      rw [(show 1 + a + microTotal (b :: t2) - 1 - (a + 1) = microTotal (b :: t2) - 1 by omega)]
      rw [ih (by simp)]
      have hlen : (a :: b :: t2).length - 1 = ((b :: t2).length - 1) + 1 := by simp
      rw [hlen, List.getD_cons_succ]
      simp

theorem nextStep_stateAt (hs : List Nat) (m : Nat) (hm : m + 1 < microTotal hs) :
    (nextStep (stateAt hs m)).1 = stateAt hs (m + 1) := by
  have hstep := stepPair_unrank hs m hm
  have hadv := unrank_can_advance hs m hm
  by_cases hc : (unrank hs m).2 < hs.getD ((unrank hs m).1 - 1) 0
  · have e12 : unrank hs (m + 1) = ((unrank hs m).1, (unrank hs m).2 + 1) := by
      rw [← hstep]; unfold stepPair; rw [if_pos hc]
    have hcond : (stateAt hs m).currentHighlight < hlAt (stateAt hs m) := by
      unfold stateAt hlAt at *; simpa using hc
    unfold nextStep
    rw [if_pos hcond]
    unfold stateAt
    simp only [e12, SlideState.mk.injEq, true_and, and_true]
    push_cast
    ring
  · have hlen : (unrank hs m).1 < hs.length := by
      rcases hadv with hadv | hadv
      · exact absurd hadv hc
      · exact hadv
    have e12 : unrank hs (m + 1) = ((unrank hs m).1 + 1, 0) := by
      rw [← hstep]; unfold stepPair
      rw [if_neg hc, if_neg (by omega)]
    have hcond : ¬ (stateAt hs m).currentHighlight < hlAt (stateAt hs m) := by
      unfold stateAt hlAt at *; simpa using hc
    unfold nextStep
    rw [if_neg hcond]
    rw [if_neg (show ¬ (stateAt hs m).totalSteps ≤ (stateAt hs m).currentStep by
      unfold stateAt; simpa using by omega)]
    simp only [if_pos (show (stateAt hs m).currentStep < (stateAt hs m).totalSteps by
      unfold stateAt; simpa using hlen)]
    unfold stateAt
    simp only [e12, SlideState.mk.injEq, true_and, and_true]
    push_cast
    ring

theorem advanceN_stateAt (hs : List Nat) (m : Nat) (hm : m < microTotal hs) :
    advanceN m (initState hs) = stateAt hs m := by
  induction m with
  | zero =>
    unfold advanceN
    cases hs with
    | nil => simp [microTotal] at hm
    | cons h t =>
      unfold initState stateAt
      rw [unrank_cons, if_pos (Nat.zero_le h)]
      simp
  | succ n ih =>
    unfold advanceN
    rw [ih (by omega)]
    exact nextStep_stateAt hs n hm

theorem nextStep_last (hs : List Nat) (h : hs ≠ []) :
    nextStep (stateAt hs (microTotal hs - 1)) = (stateAt hs (microTotal hs - 1), false) := by
  have hl := unrank_last hs h
  unfold nextStep
  rw [if_neg (show ¬ (stateAt hs (microTotal hs - 1)).currentHighlight <
      hlAt (stateAt hs (microTotal hs - 1)) by
    unfold stateAt hlAt; rw [hl]; simp)]
  rw [if_pos (show (stateAt hs (microTotal hs - 1)).totalSteps ≤
      (stateAt hs (microTotal hs - 1)).currentStep by
    unfold stateAt
    rw [hl])]

theorem enumPairsFrom_succ (t : List Nat) : ∀ c,
    enumPairsFrom t (c + 1) = (enumPairsFrom t c).map (fun p => (p.1 + 1, p.2)) := by
  induction t with
  | nil => intro c; rfl
  | cons h t ih =>
    intro c
    unfold enumPairsFrom
    rw [List.map_append, List.map_map, ← ih (c + 1)]
    rfl

theorem range_map_unrank (hs : List Nat) :
    (List.range (microTotal hs)).map (unrank hs) = enumPairsFrom hs 1 := by
  induction hs with
  | nil => simp [microTotal, enumPairsFrom]
  | cons h t ih =>
    rw [microTotal_cons, (show 1 + h + microTotal t = (h + 1) + microTotal t by omega)]
    rw [List.range_add, List.map_append, List.map_map]
    unfold enumPairsFrom
    congr 1
    · apply List.map_congr_left
      intro k hk
      rw [List.mem_range] at hk
      rw [unrank_cons, if_pos (by omega)]
    · have hpt : ∀ k ∈ List.range (microTotal t),
          (unrank (h :: t) ∘ (fun x => (h + 1) + x)) k =
            ((unrank t k).1 + 1, (unrank t k).2) := by
        intro k hk
        simp only [Function.comp]
        rw [unrank_cons, if_neg (by omega), (show (h + 1) + k - (h + 1) = k by omega)]
      rw [List.map_congr_left hpt]
      have : (List.range (microTotal t)).map (fun k => ((unrank t k).1 + 1, (unrank t k).2)) =
          ((List.range (microTotal t)).map (unrank t)).map (fun p => (p.1 + 1, p.2)) := by
        rw [List.map_map]; rfl
      rw [this, ih, ← enumPairsFrom_succ]

theorem microTotal_singleton (x : Nat) : microTotal [x] = 1 + x := by
  simp only [microTotal, List.foldl_cons, List.foldl_nil]
  omega

theorem microTotal_take_succ (hs : List Nat) (c : Nat) (hc : c < hs.length) :
    microTotal (hs.take (c + 1)) = microTotal (hs.take c) + 1 + hs.getD c 0 := by
  rw [List.take_succ, microTotal_append]
  rw [List.getElem?_eq_getElem hc]
  rw [List.getD_eq_getElem hs 0 hc]
  simp only [Option.toList_some]
  rw [microTotal_singleton]
  omega

theorem inv_nextStep (s : SlideState) (hwf : WF s) (hinv : StateInv s) :
    StateInv (nextStep s).1 := by
  obtain ⟨h1, h2, h3, h4, h5⟩ := hwf
  unfold nextStep
  by_cases hc : s.currentHighlight < hlAt s
  · rw [if_pos hc]
    unfold StateInv rankPair at hinv ⊢
    simp only at hinv ⊢
    omega
  · rw [if_neg hc]
    by_cases ht : s.totalSteps ≤ s.currentStep
    · rw [if_pos ht]
      exact hinv
    · rw [if_neg ht]
      simp only [if_pos (show s.currentStep < s.totalSteps by omega)]
      have hhl : s.currentHighlight = hlAt s := by omega
      have htake := microTotal_take_succ s.highlightsPerStep (s.currentStep - 1)
        (by omega)
      rw [(show s.currentStep - 1 + 1 = s.currentStep by omega)] at htake
      unfold StateInv rankPair at hinv ⊢
      unfold hlAt at hhl
      simp only at hinv ⊢
      rw [(show s.currentStep + 1 - 1 = s.currentStep by omega)]
      omega

theorem inv_prevStep (s : SlideState) (hwf : WF s) (hinv : StateInv s) :
    StateInv (prevStep s).1 := by
  obtain ⟨h1, h2, h3, h4, h5⟩ := hwf
  unfold prevStep
  by_cases hc : 0 < s.currentHighlight
  · rw [if_pos hc]
    unfold StateInv rankPair at hinv ⊢
    simp only at hinv ⊢
    omega
  · rw [if_neg hc]
    by_cases ht : s.currentStep ≤ 1
    · rw [if_pos ht]
      exact hinv
    · rw [if_neg ht]
      simp only [if_pos (show s.currentStep - 1 < s.totalSteps by omega)]
      have hhl : s.currentHighlight = 0 := by omega
      have htake := microTotal_take_succ s.highlightsPerStep (s.currentStep - 2)
        (by omega)
      rw [(show s.currentStep - 2 + 1 = s.currentStep - 1 by omega)] at htake
      unfold StateInv rankPair at hinv ⊢
      simp only at hinv ⊢
      rw [(show s.currentStep - 1 - 1 = s.currentStep - 2 by omega)]
      by_cases hp : 0 < s.highlightsPerStep.getD (s.currentStep - 2) 0
      · rw [if_pos hp]
        omega
      · rw [if_neg hp]
        omega

theorem inv_resetSlide (s : SlideState) : StateInv (resetSlide s) := by
  unfold StateInv resetSlide rankPair
  simp [microTotal]

theorem inv_showAllSteps (s : SlideState) (hwf : WF s)
    (hlast : s.highlightsPerStep.getD (s.totalSteps - 1) 0 = 0) :
    StateInv (showAllSteps s) := by
  obtain ⟨h1, h2, h3, h4, h5⟩ := hwf
  have htake := microTotal_take_succ s.highlightsPerStep (s.totalSteps - 1) (by omega)
  rw [(show s.totalSteps - 1 + 1 = s.totalSteps by omega)] at htake
  have hfull : s.highlightsPerStep.take s.totalSteps = s.highlightsPerStep := by
    apply List.take_of_length_le
    omega
  rw [hfull, hlast] at htake
  unfold StateInv showAllSteps rankPair
  simp only
  omega

theorem nextStep_hl (s : SlideState) (hc : s.currentHighlight < hlAt s) :
    nextStep s = ({ s with
        currentHighlight := s.currentHighlight + 1
        currentMicroStep := s.currentMicroStep + 1 }, true) := by
  unfold nextStep
  rw [if_pos hc]

theorem nextStep_chunk (s : SlideState) (hc : ¬ s.currentHighlight < hlAt s)
    (hlt : s.currentStep < s.totalSteps) :
    (nextStep s).1 = { s with
        currentStep := s.currentStep + 1
        currentHighlight := 0
        currentMicroStep := s.currentMicroStep + 1 } := by
  unfold nextStep
  rw [if_neg hc, if_neg (by omega)]
  simp only [if_pos hlt]

theorem prevStep_hl (s : SlideState) (hc : 0 < s.currentHighlight) :
    prevStep s = ({ s with
        currentHighlight := s.currentHighlight - 1
        currentMicroStep := s.currentMicroStep - 1 }, true) := by
  unfold prevStep
  rw [if_pos hc]

theorem prevStep_chunk (s : SlideState) (hc : ¬ 0 < s.currentHighlight)
    (hg : ¬ s.currentStep ≤ 1) (hb : s.currentStep - 1 < s.totalSteps) :
    (prevStep s).1 = { s with
        currentStep := s.currentStep - 1
        currentMicroStep := s.currentMicroStep - 1
        currentHighlight :=
          if 0 < s.highlightsPerStep.getD (s.currentStep - 1 - 1) 0 then
            s.highlightsPerStep.getD (s.currentStep - 1 - 1) 0
          else s.currentHighlight } := by
  unfold prevStep
  rw [if_neg hc, if_neg hg]
  simp only [if_pos hb]

/-- C3 counterexample: on a slide with one chunk carrying one highlight, the
reachable state (chunk 1, no highlight, micro step 1) is well formed and
satisfies the rank invariant, but `showAllSteps` produces
`currentMicroStep = totalMicroSteps = 2` while `(currentChunk,
currentHighlight) = (1, 0)` has rank 1, so revealAll does not preserve the
invariant. -/
theorem claim_C3_counterexample :
    WF (initState [1]) ∧ StateInv (initState [1]) ∧
      ¬ StateInv (showAllSteps (initState [1])) := by
  refine ⟨by decide, by decide, by decide⟩

/-- C3 (amended): for every well-formed state satisfying the rank
invariant, advance (`nextStep`), retreat (`prevStep`) and resetToFirst
(`resetSlide`) preserve the invariant that `currentMicroStep` is the
1-based rank of `(currentChunk, currentHighlight)` in the canonical global
ordering; revealAll (`showAllSteps`) preserves it only in the case that the
last chunk has no highlights (in general it sets `currentMicroStep` to
`totalMicroSteps` while the pair `(totalChunks, 0)` has rank
`totalMicroSteps` minus the last chunk's highlight count). -/
theorem claim_C3_amended (s : SlideState) (hwf : WF s) (hinv : StateInv s) :
    StateInv (nextStep s).1 ∧ StateInv (prevStep s).1 ∧ StateInv (resetSlide s) ∧
      (s.highlightsPerStep.getD (s.totalSteps - 1) 0 = 0 → StateInv (showAllSteps s)) :=
  ⟨inv_nextStep s hwf hinv, inv_prevStep s hwf hinv, inv_resetSlide s,
    fun h => inv_showAllSteps s hwf h⟩

/-- C3 witness: the amended theorem applied to the freshly parsed state of
a slide with highlight counts `[2, 0]`. -/
theorem claim_C3_amended_witness :
    StateInv (nextStep (initState [2, 0])).1 ∧ StateInv (prevStep (initState [2, 0])).1 ∧
      StateInv (resetSlide (initState [2, 0])) ∧
      ((initState [2, 0]).highlightsPerStep.getD ((initState [2, 0]).totalSteps - 1) 0 = 0 →
        StateInv (showAllSteps (initState [2, 0]))) :=
  claim_C3_amended (initState [2, 0]) (by decide) (by decide)

/-- C4: for a slide with chunk highlight counts `hs` (at least one chunk),
starting from resetToFirst and advancing `microTotal hs - 1` times visits
exactly the canonical sequence of `(chunk, highlight)` pairs, in strictly
increasing `currentMicroStep` order with no skips (`currentMicroStep = k+1`
after `k` advances), and one further advance leaves the state unchanged and
reports no more steps. -/
theorem claim_C4_theorem (hs : List Nat) (hne : 0 < hs.length) :
    ((List.range (microTotal hs)).map
        (fun k => pairOf (advanceN k (resetSlide (initState hs)))) = enumPairs hs) ∧
      (∀ k, k < microTotal hs →
        (advanceN k (resetSlide (initState hs))).currentMicroStep = (k : Int) + 1) ∧
      nextStep (advanceN (microTotal hs - 1) (resetSlide (initState hs))) =
        (advanceN (microTotal hs - 1) (resetSlide (initState hs)), false) := by
  have hne' : hs ≠ [] := by
    cases hs
    · simp at hne
    · simp
  have hT : 0 < microTotal hs := microTotal_pos hs hne'
  have hreset : resetSlide (initState hs) = initState hs := rfl
  refine ⟨?_, ?_, ?_⟩
  · rw [hreset, enumPairs, ← range_map_unrank hs]
    apply List.map_congr_left
    intro k hk
    rw [List.mem_range] at hk
    rw [advanceN_stateAt hs k hk]
    rfl
  · intro k hk
    rw [hreset, advanceN_stateAt hs k hk]
    rfl
  · rw [hreset, advanceN_stateAt hs (microTotal hs - 1) (by omega)]
    exact nextStep_last hs hne'

/-- C4 witness: the completeness theorem applied to a slide with two
chunks, one highlight in the first. -/
theorem claim_C4_witness :
    0 < ([1, 0] : List Nat).length ∧
      (((List.range (microTotal [1, 0])).map
          (fun k => pairOf (advanceN k (resetSlide (initState [1, 0]))))) = enumPairs [1, 0] ∧
        (∀ k, k < microTotal [1, 0] →
          (advanceN k (resetSlide (initState [1, 0]))).currentMicroStep = (k : Int) + 1) ∧
        nextStep (advanceN (microTotal [1, 0] - 1) (resetSlide (initState [1, 0]))) =
          (advanceN (microTotal [1, 0] - 1) (resetSlide (initState [1, 0])), false)) :=
  ⟨by decide, claim_C4_theorem [1, 0] (by decide)⟩

/-- C5: from any well-formed (reachable) state that is not
terminal-forward, retreating immediately after advancing restores the full
state: the `(currentChunk, currentHighlight)` pair and the micro-step
cursor; in particular retreating across a chunk boundary restores the
previous chunk fully highlighted. -/
theorem claim_C5_theorem (s : SlideState) (hwf : WF s) (hterm : ¬ TerminalForward s) :
    (prevStep (nextStep s).1).1 = s := by
  obtain ⟨c, hl, ts, hps, tms, ms⟩ := s
  obtain ⟨h1, h2, h3, h4, h5⟩ := hwf
  unfold TerminalForward at hterm
  rw [not_and_or] at hterm
  unfold hlAt at hterm h4
  simp only at hterm h4 h1 h2 h3 h5
  by_cases hc : hl < hps.getD (c - 1) 0
  · rw [nextStep_hl ⟨c, hl, ts, hps, tms, ms⟩ (by unfold hlAt; simpa using hc)]
    rw [prevStep_hl _ (by simp)]
    simp only [SlideState.mk.injEq, true_and, and_true]
    omega
  · have hlt : c < ts := by omega
    rw [nextStep_chunk ⟨c, hl, ts, hps, tms, ms⟩ (by unfold hlAt; simpa using hc)
      (by simpa using hlt)]
    rw [prevStep_chunk _ (by simp) (by simp; omega) (by simp; omega)]
    simp only [SlideState.mk.injEq, true_and, and_true]
    simp only [(show c + 1 - 1 - 1 = c - 1 by omega)]
    by_cases hp : 0 < hps.getD (c - 1) 0
    · rw [if_pos hp]
      omega
    · rw [if_neg hp]
      omega

/-- C5 witness: the inverse-symmetry theorem applied to the initial state
of a slide with one chunk and one highlight. -/
theorem claim_C5_witness : (prevStep (nextStep (initState [1])).1).1 = initState [1] :=
  claim_C5_theorem (initState [1]) (by decide) (by decide)

/-- C9: the boolean returned by `nextStep` is not a uniform
"a step was performed" flag: revealing a highlight always returns `true`
(also at the final micro step), while revealing a new chunk returns
`hasNextStep` evaluated after the mutation; concretely, on a slide with two
highlight-free chunks the advance into the final chunk returns `false`
although the state changed, so a `false` return does not imply the state
was left unchanged. -/
theorem claim_C9_theorem :
    (∀ s : SlideState, s.currentHighlight < hlAt s → (nextStep s).2 = true) ∧
      (∀ s : SlideState, ¬ s.currentHighlight < hlAt s → s.currentStep < s.totalSteps →
        (nextStep s).2 = hasNextStep (nextStep s).1) ∧
      (nextStep (initState [0, 0])).2 = false ∧
      (nextStep (initState [0, 0])).1 ≠ initState [0, 0] := by
  refine ⟨?_, ?_, by decide, by decide⟩
  · intro s hc
    unfold nextStep
    rw [if_pos hc]
  · intro s hc hlt
    unfold nextStep
    rw [if_neg hc, if_neg (by omega)]

/-- C9 witness: the return-value characterization applied at concrete
states: a slide with one highlighted chunk (highlight case) and a slide
with two highlight-free chunks (chunk case). -/
theorem claim_C9_witness :
    (nextStep (initState [1])).2 = true ∧
      (nextStep (initState [0, 0])).2 = hasNextStep (nextStep (initState [0, 0])).1 :=
  ⟨claim_C9_theorem.1 (initState [1]) (by decide),
    claim_C9_theorem.2.1 (initState [0, 0]) (by decide) (by decide)⟩

end Fragment

namespace Component

open MatchaJs

theorem matchParamAt_none (cs : List Char) (h : ∀ c ∈ cs, c ≠ '=') :
    matchParamAt cs = none := by
  unfold matchParamAt
  cases hkey : (cs.takeWhile isKeyChar).isEmpty
  · simp only [hkey, Bool.false_eq_true, if_false]
    split
    · rename_i r2 heq
      exfalso
      have hsub : (cs.dropWhile isKeyChar).dropWhile isSpaceChar <:+ cs :=
        (List.dropWhile_suffix _).trans (List.dropWhile_suffix _)
      have hmem : '=' ∈ cs := hsub.subset (by rw [heq]; exact List.mem_cons_self _ _)
      exact h '=' hmem rfl
    · rfl
  · simp [hkey]

theorem findParamMatch_none (cs : List Char) (h : ∀ c ∈ cs, c ≠ '=') :
    findParamMatch cs = none := by
  induction cs with
  | nil => rfl
  | cons c cs ih =>
    unfold findParamMatch
    rw [matchParamAt_none (c :: cs) h]
    exact ih (fun x hx => h x (List.mem_cons_of_mem c hx))

theorem parseParamsAux_no_eq (fuel : Nat) (cs : List Char) (h : ∀ c ∈ cs, c ≠ '=') :
    parseParamsAux fuel cs [] = [] := by
  cases fuel with
  | zero => rfl
  | succ n =>
    unfold parseParamsAux
    rw [findParamMatch_none cs h]

end Component

/-- C6 counterexample: the bare key token `flag` (no `=` sign) is not
present in the mapping produced by `_parseParams` at all, in either the
component module or the image module, rather than being a boolean-true
flag. -/
theorem claim_C6_counterexample :
    Component.parseParams ("flag") = [] ∧ Image.parseParams ("flag") = [] ∧
      List.lookup ("flag") (Component.parseParams ("flag")) = none :=
  ⟨rfl, rfl, rfl⟩

/-- C6 (amended): a key token without an `=` sign is silently ignored by
`_parseParams` — the match regex requires `=`, so a parameter string with
no `=` character anywhere produces the empty mapping (in both the
component and image modules), and bare keys never appear in the result. -/
theorem claim_C6_amended (s : String) (h : ∀ c ∈ s.data, c ≠ '=') :
    Component.parseParams s = [] ∧ Image.parseParams s = [] :=
  ⟨Component.parseParamsAux_no_eq _ _ h, Component.parseParamsAux_no_eq _ _ h⟩

/-- C6 witness: the amended theorem applied to the bare key `flag`. -/
theorem claim_C6_amended_witness :
    Component.parseParams ("flag") = [] ∧ Image.parseParams ("flag") = [] :=
  claim_C6_amended ("flag") (by decide)

namespace Component

open MatchaJs

theorem lookup_cons_bit {α : Type} (a k : String) (v : α) (l : List (String × α)) :
    List.lookup a ((k, v) :: l) = if a = k then some v else List.lookup a l := by
  simp only [List.lookup]
  by_cases h : a = k
  · rw [if_pos h, (show (a == k) = true by simp [h])]
  · rw [if_neg h, (show (a == k) = false by simp [h])]

theorem lookup_map_replace_ne {α : Type} (o : List (String × α)) (k : String) (v : α)
    (k' : String) (hk : k' ≠ k) :
    List.lookup k' (o.map (fun p => if p.1 = k then (k, v) else p)) = List.lookup k' o := by
  induction o with
  | nil => rfl
  | cons b o ih =>
    obtain ⟨b1, b2⟩ := b
    simp only [List.map_cons]
    by_cases hbk : b1 = k
    · simp only [if_pos (show (b1, b2).1 = k from hbk)]
      rw [lookup_cons_bit, lookup_cons_bit, ih]
      rw [if_neg hk, if_neg (fun h => hk (h.trans hbk))]
    · simp only [if_neg (show ¬ (b1, b2).1 = k from hbk)]
      rw [lookup_cons_bit, lookup_cons_bit, ih]

theorem lookup_map_replace_eq {α : Type} (o : List (String × α)) (k : String) (v : α)
    (hany : o.any (fun p => p.1 = k)) :
    List.lookup k (o.map (fun p => if p.1 = k then (k, v) else p)) = some v := by
  induction o with
  | nil => simp at hany
  | cons b o ih =>
    obtain ⟨b1, b2⟩ := b
    simp only [List.map_cons]
    by_cases hbk : b1 = k
    · simp only [if_pos (show (b1, b2).1 = k from hbk)]
      rw [lookup_cons_bit, if_pos rfl]
    · simp only [if_neg (show ¬ (b1, b2).1 = k from hbk)]
      rw [lookup_cons_bit, if_neg (fun h => hbk h.symm)]
      exact ih (by simpa [hbk] using hany)

theorem lookup_append_single_hit {α : Type} (o : List (String × α)) (k : String) (v : α)
    (h : ¬ o.any (fun p => p.1 = k)) :
    List.lookup k (o ++ [(k, v)]) = some v := by
  induction o with
  | nil =>
    rw [List.nil_append, lookup_cons_bit, if_pos rfl]
  | cons b o ih =>
    obtain ⟨b1, b2⟩ := b
    have hbk : ¬ b1 = k := fun hcon => h (by simp [List.any_cons, hcon])
    rw [List.cons_append, lookup_cons_bit, if_neg (fun hcon => hbk hcon.symm)]
    exact ih (fun hcon => h (by simp [List.any_cons]; right; simpa using hcon))

theorem lookup_append_single_ne {α : Type} (o : List (String × α)) (k : String) (v : α)
    (k' : String) (hk : k' ≠ k) :
    List.lookup k' (o ++ [(k, v)]) = List.lookup k' o := by
  induction o with
  | nil =>
    rw [List.nil_append, lookup_cons_bit, if_neg hk]
  | cons b o ih =>
    obtain ⟨b1, b2⟩ := b
    rw [List.cons_append, lookup_cons_bit, lookup_cons_bit]
    by_cases hkb : k' = b1
    · rw [if_pos hkb, if_pos hkb]
    · rw [if_neg hkb, if_neg hkb, ih]

theorem objInsert_lookup {α : Type} (o : List (String × α)) (k : String) (v : α)
    (k' : String) :
    List.lookup k' (objInsert o k v) = if k' = k then some v else List.lookup k' o := by
  unfold objInsert
  by_cases hany : o.any (fun p => p.1 = k)
  · rw [if_pos hany]
    by_cases hk : k' = k
    · rw [if_pos hk, hk, lookup_map_replace_eq o k v hany]
    · rw [if_neg hk, lookup_map_replace_ne o k v k' hk]
  · rw [if_neg hany]
    by_cases hk : k' = k
    · rw [if_pos hk, hk, lookup_append_single_hit o k v hany]
    · rw [if_neg hk, lookup_append_single_ne o k v k' hk]

theorem spreadInto_cons (o : Vars) (x : String × String) (p : List (String × String)) :
    spreadInto o (x :: p) = spreadInto (objInsert o x.1 x.2) p := rfl

theorem spreadInto_nil (o : Vars) : spreadInto o [] = o := rfl

theorem spreadInto_lookup (p : List (String × String)) : ∀ (o : Vars) (k : String),
    List.lookup k (spreadInto o p) =
      (List.lookup k (spreadInto [] p)).or (List.lookup k o) := by
  induction p with
  | nil =>
    intro o k
    rw [spreadInto_nil, spreadInto_nil]
    rfl
  | cons x p ih =>
    intro o k
    rw [spreadInto_cons, spreadInto_cons, ih (objInsert o x.1 x.2) k,
      ih (objInsert [] x.1 x.2) k]
    rw [objInsert_lookup, objInsert_lookup]
    by_cases hk : k = x.1
    · rw [if_pos hk, if_pos hk]
      cases List.lookup k (spreadInto [] p) <;> rfl
    · rw [if_neg hk, if_neg hk]
      have hempty : List.lookup k ([] : List (String × String)) = none := rfl
      rw [hempty]
      cases List.lookup k (spreadInto [] p) <;> rfl

end Component

/-- C1 counterexample: a usage whose params bind the built-in name
`$slideNumber` to `999` renders the template `{{$slideNumber}}` (braces
escaped in the embedded literal) on slide index 0 of 1 to `999`, not to
the built-in value `1`: the user-supplied value wins over the built-in. -/
theorem claim_C1_counterexample :
    Component.renderComponentContent 64 ("\x7b\x7b$slideNumber\x7d\x7d") 0 1 []
        [("$slideNumber", "999")] = "999" ∧
      ("999" : String) ≠ "1" :=
  ⟨rfl, by decide⟩

/-- C1 (amended): the variable merge of `renderComponents` is the JS
spread `{ ...builtinVars, ...globalVars, ...usage.params }`, so the
precedence is the reverse of the claim: per-usage params override global
variables, which override the built-ins `$slideIndex`, `$slideNumber` and
`$totalSlides`; keys bound by no later layer fall through to the built-in
layer.  Concretely, a params entry for `$slideNumber` reaches the expanded
output. -/
theorem claim_C1_amended :
    (∀ (slideIndex totalSlides : Nat) (g p : Component.Vars) (k v : String),
      List.lookup k (Component.spreadInto [] p) = some v →
      List.lookup k (Component.mergedVars slideIndex totalSlides g p) = some v) ∧
    (∀ (slideIndex totalSlides : Nat) (g p : Component.Vars) (k v : String),
      List.lookup k (Component.spreadInto [] p) = none →
      List.lookup k (Component.spreadInto [] g) = some v →
      List.lookup k (Component.mergedVars slideIndex totalSlides g p) = some v) ∧
    (∀ (slideIndex totalSlides : Nat) (g p : Component.Vars) (k : String),
      List.lookup k (Component.spreadInto [] p) = none →
      List.lookup k (Component.spreadInto [] g) = none →
      List.lookup k (Component.mergedVars slideIndex totalSlides g p) =
        List.lookup k (Component.spreadInto [] (Component.builtinVars slideIndex totalSlides))) ∧
    (Component.renderComponentContent 64 ("\x7b\x7b$slideNumber\x7d\x7d") 0 1 []
        [("$slideNumber", "999")] = "999") := by
  refine ⟨?_, ?_, ?_, rfl⟩
  · intro si ts g p k v hp
    unfold Component.mergedVars
    rw [Component.spreadInto_lookup p _ k, hp]
    rfl
  · intro si ts g p k v hp hg
    unfold Component.mergedVars
    rw [Component.spreadInto_lookup p _ k, hp]
    rw [(show (none : Option String).or
      (List.lookup k (Component.spreadInto (Component.spreadInto [] (Component.builtinVars si ts)) g)) =
      List.lookup k (Component.spreadInto (Component.spreadInto [] (Component.builtinVars si ts)) g) from rfl)]
    rw [Component.spreadInto_lookup g _ k, hg]
    rfl
  · intro si ts g p k hp hg
    unfold Component.mergedVars
    rw [Component.spreadInto_lookup p _ k, hp]
    rw [(show (none : Option String).or
      (List.lookup k (Component.spreadInto (Component.spreadInto [] (Component.builtinVars si ts)) g)) =
      List.lookup k (Component.spreadInto (Component.spreadInto [] (Component.builtinVars si ts)) g) from rfl)]
    rw [Component.spreadInto_lookup g _ k, hg]
    rfl

/-- C1 witness: the params layer wins for the built-in name
`$slideNumber` in the merged context of slide 0 of 1. -/
theorem claim_C1_amended_witness :
    List.lookup ("$slideNumber")
        (Component.mergedVars 0 1 [] [("$slideNumber", "999")]) = some ("999") :=
  claim_C1_amended.1 0 1 [] [("$slideNumber", "999")] ("$slideNumber") ("999") (by decide)

/-- C7: the repeat construct expands the claim's concrete example to
`#1 #2 #3 `; in general, a matched `(repeat N)(body)(end)` construct (the
template braces are escaped in the embedded literals) is replaced by the
body rendered recursively once per iteration under the context extended
with the loop bindings `$i` (1-based) and `$i0` (0-based), `N` resolving
from a literal integer or a context variable via `parseInt`; an
unresolvable or nonpositive count produces the empty expansion. -/
theorem claim_C7_theorem :
    (Component.renderTemplate 64
        ("\x7b\x7b#repeat 3\x7d\x7d#\x7b\x7b$i\x7d\x7d \x7b\x7b/repeat\x7d\x7d") [] =
      "#1 #2 #3 ") ∧
    (∀ (fuel : Nat) (t : List Char) (vars : Component.Vars) pre cnt body rest,
      MatchaJs.scanFirst Component.matchRepeatAt t = some (pre, (cnt, body, rest)) →
      Component.processRepeatAux (fuel + 1) t vars =
        pre ++
          (match Component.resolveRepeatCount cnt vars with
           | none => []
           | some n =>
             if n ≤ 0 then []
             else List.flatten ((List.range n.toNat).map (fun i =>
               Component.renderTemplateAux fuel body (Component.loopVars vars i)))) ++
          Component.processRepeatAux fuel rest vars) ∧
    (∀ (fuel : Nat) (t : List Char) (vars : Component.Vars) pre cnt body rest,
      MatchaJs.scanFirst Component.matchRepeatAt t = some (pre, (cnt, body, rest)) →
      (Component.resolveRepeatCount cnt vars = none ∨
        ∃ n, Component.resolveRepeatCount cnt vars = some n ∧ n ≤ 0) →
      Component.processRepeatAux (fuel + 1) t vars =
        pre ++ Component.processRepeatAux fuel rest vars) := by
  refine ⟨rfl, ?_, ?_⟩
  · intro fuel t vars pre cnt body rest h
    simp only [Component.processRepeatAux, h]
  · intro fuel t vars pre cnt body rest h hres
    simp only [Component.processRepeatAux, h]
    rcases hres with hres | ⟨n, hn, hle⟩
    · rw [hres]
      simp
    · rw [hn]
      simp [hle]

/-- C7 witness: the general expansion equation applied to the concrete
template `(repeat 2)x(end)` with fuel 8 and the empty context. -/
theorem claim_C7_witness :
    Component.processRepeatAux 9 (("\x7b\x7b#repeat 2\x7d\x7dx\x7b\x7b/repeat\x7d\x7d").data) [] =
      [] ++
        (match Component.resolveRepeatCount (("2").data) [] with
         | none => []
         | some n =>
           if n ≤ 0 then []
           else List.flatten ((List.range n.toNat).map (fun i =>
             Component.renderTemplateAux 8 (("x").data) (Component.loopVars [] i)))) ++
        Component.processRepeatAux 8 [] [] :=
  claim_C7_theorem.2.1 8 (("\x7b\x7b#repeat 2\x7d\x7dx\x7b\x7b/repeat\x7d\x7d").data) [] []
    (("2").data) (("x").data) [] (by decide)

/-- C8 counterexample: in the document `abc---global\nrest` no line
consists exactly of `---global`, yet `parseAndBuild`'s split regex
matches: the definitions region becomes `abc` and the slide region
`\nrest`, contradicting the claim that such a line is not a split
point. -/
theorem claim_C8_counterexample :
    Matcha.splitGlobal ("abc---global\nrest") = ("abc", "\nrest") ∧
      Matcha.splitGlobal ("abc---global\nrest") ≠ ("", "abc---global\nrest") :=
  ⟨rfl, by decide⟩

/-- C8 (amended): the document is split at the earliest occurrence of the
literal `---global` that is followed by only whitespace up to a line end
(the regex `/^([\s\S]*?)---global\s*$/m`): text before the marker on the
same line does not prevent the split and stays in the definitions region;
non-whitespace text after the marker on the line prevents a split at that
occurrence; trailing whitespace is tolerated; without any such occurrence
the whole document is the slide region. -/
theorem claim_C8_amended :
    Matcha.splitGlobal ("a\n---global\nb") = ("a\n", "\nb") ∧
      Matcha.splitGlobal ("abc---global\nrest") = ("abc", "\nrest") ∧
      Matcha.splitGlobal ("abc---globalx\nrest") = ("", "abc---globalx\nrest") ∧
      Matcha.splitGlobal ("---global   \nrest") = ("", "\nrest") ∧
      Matcha.splitGlobal ("---global\nx---global\ny") = ("", "\nx---global\ny") ∧
      Matcha.splitGlobal ("no marker here") = ("", "no marker here") :=
  ⟨rfl, rfl, rfl, rfl, rfl, rfl⟩

theorem lookup_foldl_registerDef (l : List (List Char × List Char × List Char)) :
    ∀ (store : Component.ComponentStore) (k : String),
      List.lookup k (l.foldl Component.registerDef store) =
        ((l.reverse.find? (fun d => (MatchaJs.jsTrim d.1).asString == k)).map
            Component.mkComponentDef).or (List.lookup k store) := by
  induction l with
  | nil =>
    intro store k
    rfl
  | cons d l ih =>
    intro store k
    rw [List.foldl_cons, ih (Component.registerDef store d) k]
    rw [List.reverse_cons, List.find?_append]
    unfold Component.registerDef
    rw [Component.objInsert_lookup]
    by_cases hk : k = (MatchaJs.jsTrim d.1).asString
    · rw [if_pos hk]
      have hfd : List.find? (fun d' => (MatchaJs.jsTrim d'.1).asString == k) [d] = some d :=
        List.find?_cons_of_pos _ (by rw [beq_iff_eq]; exact hk.symm)
      rw [hfd]
      cases List.find? (fun d' => (MatchaJs.jsTrim d'.1).asString == k) l.reverse <;> rfl
    · rw [if_neg hk]
      have hfd : List.find? (fun d' => (MatchaJs.jsTrim d'.1).asString == k) [d] = none := by
        rw [List.find?_cons_of_neg _ (by rw [beq_iff_eq]; exact fun h => hk h.symm)]
        rfl
      rw [hfd]
      cases List.find? (fun d' => (MatchaJs.jsTrim d'.1).asString == k) l.reverse <;> rfl

/-- C10: component definition blocks are registered from the slide
section as well as from the definitions region: the store built by
`parseAndBuild` maps a name to the definition of the last matching define
block in the concatenation of the global section's matches and the slide
section's matches (later definitions overwrite earlier ones).  Concretely,
a define block inside a slide region of a document with a `---global`
split is registered (with its declared position) and its text is removed
before the residual is split into slide blocks. -/
theorem claim_C10_theorem :
    (∀ (markdown : String) (k : String),
      List.lookup k (Matcha.parseAndBuildBlocks markdown).1 =
        ((Component.scanDefs (Matcha.splitGlobal markdown).1.data ++
            Component.scanDefs (Matcha.splitGlobal markdown).2.data).reverse.find?
              (fun d => (MatchaJs.jsTrim d.1).asString == k)).map
          Component.mkComponentDef) ∧
    (List.lookup ("foo")
        (Matcha.parseAndBuildBlocks
          ("intro\n---global\nSlide1\n<!-- define: foo, position=top -->T \x7b\x7bx\x7d\x7d<!-- enddefine -->\n---\nSlide2")).1 =
      some { name := "foo", template := "T \x7b\x7bx\x7d\x7d", position := "top",
             usageCount := 0 }) ∧
    ((Matcha.parseAndBuildBlocks
        ("intro\n---global\nSlide1\n<!-- define: foo, position=top -->T \x7b\x7bx\x7d\x7d<!-- enddefine -->\n---\nSlide2")).2 =
      ["\nSlide1\n", "\nSlide2"]) := by
  refine ⟨?_, rfl, rfl⟩
  intro markdown k
  show List.lookup k
      ((Component.scanDefs (Matcha.splitGlobal markdown).2.data).foldl Component.registerDef
        ((Component.scanDefs (Matcha.splitGlobal markdown).1.data).foldl Component.registerDef
          [])) = _
  rw [lookup_foldl_registerDef, lookup_foldl_registerDef]
  rw [List.reverse_append, List.find?_append]
  cases List.find? (fun d => (MatchaJs.jsTrim d.1).asString == k)
      (Component.scanDefs (Matcha.splitGlobal markdown).2.data).reverse <;>
    cases List.find? (fun d => (MatchaJs.jsTrim d.1).asString == k)
        (Component.scanDefs (Matcha.splitGlobal markdown).1.data).reverse <;>
      rfl

namespace Fragment

/-- C2: counterexample.  The spec requires a protection pass so that
directive syntax inside fenced-code or inline-code spans is never
interpreted; in the code no such pass exists: `parseAndRender` and
`_parseHighlights` run the step and highlight regexes over the raw chunk
text, so a step marker inside a fenced code block splits the chunk into
two steps (not the single step the spec demands), and a highlight token
inside inline code is wrapped in a highlight span. -/
theorem claim_C2_counterexample :
    (parseAndRenderState ("```\n<!-- step -->\n```")).totalSteps = 2 ∧
    ¬ (parseAndRenderState ("```\n<!-- step -->\n```")).totalSteps = 1 ∧
    parseHighlights ("`<x>`") =
      ("`<span class=\"matcha-highlight\" data-highlight-index=\"0\">x</span>`") := by
  exact ⟨rfl, by decide, rfl⟩

/-- C2 (amended): the step and highlight scanners operate directly on the
raw chunk text with no code-span protection: a step marker inside a
fenced code block splits the chunk into two valid steps whose contents
are the fence halves, a highlight token inside inline code is counted by
`_countHighlights`, and `_parseHighlights` wraps a matched token in the
indexed highlight span.  The only placeholder protection in the code
lives in `MarkdowmParse.parse`, which runs on each chunk after directive
extraction has already happened. -/
theorem claim_C2_amended :
    (validSteps ("```\n<!-- step -->\n```").data).map (fun st => st.content) =
      [("```\n").data, ("\n```").data] ∧
    countHighlights ("code `<tag>` here").data = 1 ∧
    parseHighlights ("plain <World>!") =
      ("plain <span class=\"matcha-highlight\" data-highlight-index=\"0\">World</span>!") := by
  exact ⟨rfl, rfl, rfl⟩

end Fragment
